import Mathlib

set_option maxRecDepth 100000

/-!
Verification of the slide-notes-embedding routine of the repository
(`src/app/api/add-notes/route.ts`).  Strings are modelled as `List Char`;
the zip package is an association list from path to content.  JavaScript
string primitives used by the source (`includes`, `String.replace` with a
string pattern = first occurrence, `replace` with a `/g` single-character
regex = every occurrence) are embedded below, together with a fueled
backtracking matcher for the one genuine regular expression the source
builds (`<p:sldId[^>]*id="[^"]*"[^>]*r:id="rIdN"[^>]*/>`).
-/

/-- Boolean test that `p` is a leading segment of `s` (JS `startsWith`). -/
def prefB : List Char → List Char → Bool
  | [], _ => true
  | _ :: _, [] => false
  | a :: ps, b :: ss => if a = b then prefB ps ss else false

/-- Boolean substring test, JS `String.prototype.includes`. -/
def infB (p : List Char) : List Char → Bool
  | [] => prefB p []
  | b :: ss => if prefB p (b :: ss) then true else infB p ss

/-- The proposition that `p` occurs contiguously inside `s`. -/
def Occurs (p s : List Char) : Prop := ∃ a b, s = a ++ p ++ b

/-- Number of start positions at which `p` occurs in `s`. -/
def countOccur (p : List Char) : List Char → Nat
  | [] => 0
  | b :: ss => (if prefB p (b :: ss) then 1 else 0) + countOccur p ss

/-- JS `String.prototype.replace` with a plain string pattern: replace the
first occurrence of `pat` by `repl`, identity when `pat` is absent. -/
def replaceFirst (pat repl : List Char) : List Char → List Char
  | [] => if prefB pat [] then repl else []
  | c :: rest =>
    if prefB pat (c :: rest) then repl ++ List.drop pat.length (c :: rest)
    else c :: replaceFirst pat repl rest

/-- JS `String.prototype.replace` with a single-character `/g` regex:
replace every occurrence of the character `c` by `repl`. -/
def replaceAllChar (c : Char) (repl : List Char) : List Char → List Char
  | [] => []
  | a :: s => (if a = c then repl else [a]) ++ replaceAllChar c repl s

/-- Map each character to a string and concatenate. -/
def concatMap (f : Char → List Char) : List Char → List Char
  | [] => []
  | c :: s => f c ++ concatMap f s

/-- The list `[s, s+1, …, s+n-1]`, the ascending index sequence of a JS
`for` loop. -/
def countUp : Nat → Nat → List Nat
  | _, 0 => []
  | s, n + 1 => s :: countUp (s + 1) n

theorem prefB_iff (p s : List Char) : prefB p s = true ↔ ∃ t, s = p ++ t := by
  induction p generalizing s with
  | nil => simp [prefB]
  | cons a ps ih =>
    cases s with
    | nil =>
      simp only [prefB, List.cons_append]
      constructor
      · intro h; cases h
      · rintro ⟨t, ht⟩; cases ht
    | cons b ss =>
      simp only [prefB]
      by_cases hab : a = b
      · subst hab
        rw [if_pos rfl, ih]
        constructor
        · rintro ⟨t, ht⟩; exact ⟨t, by simp [ht]⟩
        · rintro ⟨t, ht⟩
          simp only [List.cons_append, List.cons.injEq] at ht
          exact ⟨t, ht.2⟩
      · rw [if_neg hab]
        constructor
        · intro h; cases h
        · rintro ⟨t, ht⟩
          simp only [List.cons_append, List.cons.injEq] at ht
          exact absurd ht.1.symm hab

theorem prefB_append (p s t : List Char) (h : prefB p s = true) :
    prefB p (s ++ t) = true := by
  rcases (prefB_iff p s).1 h with ⟨u, hu⟩
  exact (prefB_iff p (s ++ t)).2 ⟨u ++ t, by simp [hu]⟩

theorem occurs_iff_infB (p s : List Char) : Occurs p s ↔ infB p s = true := by
  induction s with
  | nil =>
    constructor
    · rintro ⟨a, b, hab⟩
      have : a = [] ∧ p ++ b = [] := by
        constructor
        · cases a with
          | nil => rfl
          | cons x xs => simp at hab
        · cases a with
          | nil => simpa using hab.symm
          | cons x xs => simp at hab
      have hp : p = [] := by
        rcases List.append_eq_nil.mp this.2 with ⟨h1, _⟩
        exact h1
      simp [infB, hp, prefB]
    · intro h
      simp only [infB] at h
      rcases (prefB_iff p []).1 h with ⟨t, ht⟩
      exact ⟨[], t, by simp [ht]⟩
  | cons b ss ih =>
    constructor
    · rintro ⟨a, c, hac⟩
      cases a with
      | nil =>
        have : prefB p (b :: ss) = true :=
          (prefB_iff _ _).2 ⟨c, by simpa using hac⟩
        simp [infB, this]
      | cons x xs =>
        simp only [List.cons_append, List.cons.injEq] at hac
        have : Occurs p ss := ⟨xs, c, hac.2⟩
        simp only [infB]
        rw [ih.mp this]
        simp
    · intro h
      simp only [infB] at h
      by_cases hb : prefB p (b :: ss) = true
      · rcases (prefB_iff _ _).1 hb with ⟨t, ht⟩
        exact ⟨[], t, by simpa using ht⟩
      · rw [if_neg hb] at h
        rcases ih.mpr h with ⟨a, c, hac⟩
        exact ⟨b :: a, c, by simp [hac]⟩

theorem not_occurs_of_infB_false (p s : List Char) (h : infB p s = false) :
    ¬ Occurs p s := by
  intro hocc
  rw [occurs_iff_infB] at hocc
  rw [hocc] at h
  cases h

theorem occurs_append_left {p x : List Char} (y : List Char)
    (h : Occurs p x) : Occurs p (x ++ y) := by
  rcases h with ⟨a, b, hab⟩
  exact ⟨a, b ++ y, by simp [hab]⟩

theorem occurs_append_right {p y : List Char} (x : List Char)
    (h : Occurs p y) : Occurs p (x ++ y) := by
  rcases h with ⟨a, b, hab⟩
  exact ⟨x ++ a, b, by simp [hab]⟩

theorem occurs_chars {p s : List Char} (h : Occurs p s) :
    ∀ c ∈ p, c ∈ s := by
  rcases h with ⟨a, b, hab⟩
  intro c hc
  subst hab
  simp [hc]

theorem occurs_of_head (p t : List Char) : Occurs p (p ++ t) := ⟨[], t, by simp⟩

theorem occurs_self (p : List Char) : Occurs p p := ⟨[], [], by simp⟩

theorem occurs_trans {p q s : List Char} (h1 : Occurs p q) (h2 : Occurs q s) :
    Occurs p s := by
  rcases h1 with ⟨a, b, hab⟩
  rcases h2 with ⟨x, y, hxy⟩
  exact ⟨x ++ a, b ++ y, by simp [hxy, hab]⟩

theorem occurs_take_head {p q s : List Char} (h : Occurs (p ++ q) s) :
    Occurs p s := by
  rcases h with ⟨a, b, hab⟩
  exact ⟨a, q ++ b, by simp [hab]⟩

theorem prefB_refl (p : List Char) : prefB p p = true :=
  (prefB_iff p p).2 ⟨[], by simp⟩

theorem prefB_nil_false {p : List Char} (hp : p ≠ []) : prefB p [] = false := by
  cases p with
  | nil => exact absurd rfl hp
  | cons a ps => rfl

theorem take_append_of_le_len {n : Nat} {xs : List Char} (ys : List Char)
    (h : n ≤ xs.length) : (xs ++ ys).take n = xs.take n := by
  rw [List.take_append_eq_append_take]
  have : n - xs.length = 0 := Nat.sub_eq_zero_of_le h
  simp [this]

theorem exists_of_append_eq_of_le {xs ys p t : List Char}
    (h : xs ++ ys = p ++ t) (hl : p.length ≤ xs.length) :
    ∃ u, xs = p ++ u := by
  have h1 : (xs ++ ys).take p.length = xs.take p.length :=
    take_append_of_le_len ys hl
  have h2 : (p ++ t).take p.length = p := List.take_left p t
  rw [h, h2] at h1
  refine ⟨xs.drop p.length, ?_⟩
  conv_lhs => rw [← List.take_append_drop p.length xs]
  rw [← h1]

theorem eq_append_take_of_ge {xs ys p t : List Char}
    (h : xs ++ ys = p ++ t) (hl : xs.length ≤ p.length) :
    p = xs ++ ys.take (p.length - xs.length) := by
  have h1 : (xs ++ ys).take p.length = xs ++ ys.take (p.length - xs.length) := by
    rw [List.take_append_eq_append_take]
    congr 1
    exact List.take_of_length_le hl
  have h2 : (p ++ t).take p.length = p := List.take_left p t
  rw [h, h2] at h1
  exact h1

theorem prefB_append_cons_free {p : List Char} (hp : p ≠ []) {c : Char}
    (hc : c ∉ p) (x y : List Char) :
    prefB p (x ++ c :: y) = prefB p x := by
  by_cases hx : prefB p x = true
  · rw [hx]
    exact prefB_append p x (c :: y) hx
  · rw [Bool.eq_false_iff.mpr hx]
    by_cases hall : prefB p (x ++ c :: y) = true
    · exfalso
      rcases (prefB_iff _ _).1 hall with ⟨t, ht⟩
      by_cases hlen : p.length ≤ x.length
      · rcases exists_of_append_eq_of_le ht hlen with ⟨u, hu⟩
        exact hx ((prefB_iff p x).2 ⟨u, hu⟩)
      · have hle : x.length ≤ p.length := Nat.le_of_lt (Nat.lt_of_not_le hlen)
        have hpe := eq_append_take_of_ge ht hle
        have hpos : 1 ≤ p.length - x.length := by omega
        have : c ∈ p := by
          rw [hpe]
          have : (c :: y).take (p.length - x.length) =
              c :: y.take (p.length - x.length - 1) := by
            cases hn : p.length - x.length with
            | zero => omega
            | succ k => simp [List.take]
          rw [this]
          simp
        exact hc this
    · simp [Bool.eq_false_iff.mpr hall]

theorem occurs_nil_eq {p : List Char} (h : Occurs p []) : p = [] := by
  rcases h with ⟨a, b, hab⟩
  rcases List.append_eq_nil.mp (List.append_eq_nil.mp hab.symm).1 with ⟨_, h2⟩
  exact h2

theorem occurs_cons_of_tail {p t : List Char} {c : Char} (h : Occurs p t) :
    Occurs p (c :: t) := by
  rcases h with ⟨a, b, hab⟩
  exact ⟨c :: a, b, by simp [hab]⟩

theorem occurs_split_at {p : List Char} (hp : p ≠ []) {c : Char}
    (hc : c ∉ p) (x y : List Char) (h : Occurs p (x ++ c :: y)) :
    Occurs p x ∨ Occurs p y := by
  induction x with
  | nil =>
    rcases h with ⟨a, b, hab⟩
    cases a with
    | nil =>
      simp only [List.nil_append] at hab
      cases p with
      | nil => exact absurd rfl hp
      | cons ph pt =>
        simp only [List.cons_append, List.cons.injEq] at hab
        exact absurd (hab.1 ▸ List.mem_cons_self ph pt) (hab.1 ▸ hc)
    | cons d a' =>
      simp only [List.nil_append, List.cons_append, List.cons.injEq] at hab
      exact Or.inr ⟨a', b, hab.2⟩
  | cons d x' ih =>
    rcases h with ⟨a, b, hab⟩
    cases a with
    | nil =>
      simp only [List.nil_append, List.cons_append] at hab
      have hab' : (d :: x') ++ c :: y = p ++ b := by simpa using hab
      by_cases hlen : p.length ≤ (d :: x').length
      · rcases exists_of_append_eq_of_le (t := b) hab' hlen with ⟨u, hu⟩
        exact Or.inl ⟨[], u, by simpa using hu⟩
      · exfalso
        have hle : (d :: x').length ≤ p.length := Nat.le_of_lt (Nat.lt_of_not_le hlen)
        have hpe := eq_append_take_of_ge (t := b) hab' hle
        have hpos : 1 ≤ p.length - (d :: x').length := by
          simp only [List.length_cons] at hlen ⊢
          omega
        apply hc
        rw [hpe]
        have : (c :: y).take (p.length - (d :: x').length) =
            c :: y.take (p.length - (d :: x').length - 1) := by
          cases hn : p.length - (d :: x').length with
          | zero => omega
          | succ k => simp [List.take]
        rw [this]
        simp
    | cons e a' =>
      simp only [List.cons_append, List.cons.injEq] at hab
      rcases ih ⟨a', b, hab.2⟩ with h1 | h1
      · exact Or.inl (occurs_cons_of_tail h1)
      · exact Or.inr h1

theorem occurs_mid_free {p m : List Char} (hp : p ≠ []) (hm : m ≠ [])
    (hfree : ∀ c ∈ m, c ∉ p) (x y : List Char)
    (h : Occurs p (x ++ m ++ y)) : Occurs p x ∨ Occurs p y := by
  induction m generalizing x with
  | nil => exact absurd rfl hm
  | cons c m' ih =>
    have hx : x ++ (c :: m') ++ y = x ++ c :: (m' ++ y) := by simp
    rw [hx] at h
    rcases occurs_split_at hp (hfree c (by simp)) x (m' ++ y) h with h1 | h1
    · exact Or.inl h1
    · cases m' with
      | nil => exact Or.inr (by simpa using h1)
      | cons c2 m2 =>
        have := ih (by simp) (fun a ha => hfree a (List.mem_cons_of_mem c ha))
          (x := []) (by simpa using h1)
        rcases this with h2 | h2
        · exact absurd (occurs_nil_eq h2) hp
        · exact Or.inr h2

theorem countOccur_cons_free {p : List Char} (hp : p ≠ []) {c : Char}
    (hc : c ∉ p) (y : List Char) :
    countOccur p (c :: y) = countOccur p y := by
  have : prefB p (c :: y) = false := by
    have := prefB_append_cons_free hp hc [] y
    rwa [List.nil_append, prefB_nil_false hp] at this
  simp [countOccur, this]

theorem countOccur_eq_zero {p s : List Char} (hp : p ≠ [])
    (h : ¬ Occurs p s) : countOccur p s = 0 := by
  induction s with
  | nil => rfl
  | cons c rest ih =>
    have h1 : prefB p (c :: rest) = false := by
      by_cases hb : prefB p (c :: rest) = true
      · exfalso
        rcases (prefB_iff _ _).1 hb with ⟨t, ht⟩
        exact h ⟨[], t, by simpa using ht⟩
      · exact Bool.eq_false_iff.mpr hb
    have h2 : ¬ Occurs p rest := fun ho => h (occurs_cons_of_tail ho)
    simp [countOccur, h1, ih h2]

theorem count_split_at {p : List Char} (hp : p ≠ []) {c : Char}
    (hc : c ∉ p) (x y : List Char) :
    countOccur p (x ++ c :: y) = countOccur p x + countOccur p y := by
  induction x with
  | nil =>
    rw [List.nil_append, countOccur_cons_free hp hc y]
    simp [countOccur]
  | cons d x' ih =>
    have heq : prefB p (d :: (x' ++ c :: y)) = prefB p (d :: x') := by
      have := prefB_append_cons_free hp hc (d :: x') y
      simpa using this
    simp only [List.cons_append, countOccur, List.append_eq, heq, ih]
    omega

theorem count_free_mid {p m : List Char} (hp : p ≠ []) (hm : m ≠ [])
    (hfree : ∀ c ∈ m, c ∉ p) (x y : List Char) :
    countOccur p (x ++ m ++ y) = countOccur p x + countOccur p y := by
  induction m generalizing x with
  | nil => exact absurd rfl hm
  | cons c m' ih =>
    have hx : x ++ (c :: m') ++ y = x ++ c :: (m' ++ y) := by simp
    rw [hx, count_split_at hp (hfree c (by simp)) x (m' ++ y)]
    cases m' with
    | nil => simp
    | cons c2 m2 =>
      have := ih (by simp) (fun a ha => hfree a (List.mem_cons_of_mem c ha)) (x := [])
      simp only [List.nil_append] at this
      rw [this]
      simp [countOccur]

theorem replaceFirst_of_not_occurs {pat s : List Char} (r : List Char)
    (h : ¬ Occurs pat s) : replaceFirst pat r s = s := by
  have hp : pat ≠ [] := by
    intro hpe
    exact h ⟨[], s, by simp [hpe]⟩
  induction s with
  | nil => simp [replaceFirst, prefB_nil_false hp]
  | cons c rest ih =>
    have hb : prefB pat (c :: rest) = false := by
      by_cases hb : prefB pat (c :: rest) = true
      · exfalso
        rcases (prefB_iff _ _).1 hb with ⟨t, ht⟩
        exact h ⟨[], t, by simpa using ht⟩
      · exact Bool.eq_false_iff.mpr hb
    have h2 : ¬ Occurs pat rest := fun ho => h (occurs_cons_of_tail ho)
    simp [replaceFirst, hb, ih h2]

theorem replaceFirst_decomp {pat s : List Char} (hp : pat ≠ [])
    (h : Occurs pat s) :
    ∃ x b, s = x ++ pat ++ b ∧ ¬ Occurs pat x ∧
      ∀ r, replaceFirst pat r s = x ++ r ++ b := by
  induction s with
  | nil => exact absurd (occurs_nil_eq h) hp
  | cons c rest ih =>
    by_cases hb : prefB pat (c :: rest) = true
    · rcases (prefB_iff _ _).1 hb with ⟨t, ht⟩
      refine ⟨[], t, by simpa using ht, fun ho => hp (occurs_nil_eq ho), fun r => ?_⟩
      simp only [replaceFirst, hb, if_true, List.nil_append]
      rw [ht]
      rw [List.drop_left]
    · have hbf : prefB pat (c :: rest) = false := Bool.eq_false_iff.mpr hb
      rcases h with ⟨a, b, hab⟩
      cases a with
      | nil =>
        exfalso
        apply hb
        exact (prefB_iff _ _).2 ⟨b, by simpa using hab⟩
      | cons d a' =>
        simp only [List.cons_append, List.cons.injEq] at hab
        rcases ih ⟨a', b, hab.2⟩ with ⟨x, b', h1, h2, h3⟩
        refine ⟨c :: x, b', by simp [hab.1, h1], ?_, fun r => ?_⟩
        · rintro ⟨u, v, huv⟩
          cases u with
          | nil =>
            apply hb
            have hpx : prefB pat (c :: x) = true :=
              (prefB_iff _ _).2 ⟨v, by simpa using huv⟩
            have : c :: rest = (c :: x) ++ pat ++ b' := by simp [h1]
            rw [this]
            rw [List.append_assoc]
            exact prefB_append _ _ _ hpx
          | cons e u' =>
            simp only [List.cons_append, List.cons.injEq] at huv
            exact h2 ⟨u', v, huv.2⟩
        · simp only [replaceFirst, hbf, if_false, Bool.false_eq_true, h3 r]
          simp

theorem replaceFirst_at {pat x : List Char} (hp : pat ≠ [])
    (hx : ¬ Occurs pat x)
    (hlast : ∀ c, x.getLast? = some c → c ∉ pat) (r b : List Char) :
    replaceFirst pat r (x ++ pat ++ b) = x ++ r ++ b := by
  induction x with
  | nil =>
    simp only [List.nil_append]
    cases pat with
    | nil => exact absurd rfl hp
    | cons ph pt =>
      have hpre : prefB (ph :: pt) ((ph :: pt) ++ b) = true :=
        prefB_append _ _ _ (prefB_refl (ph :: pt))
      simp only [List.cons_append] at hpre ⊢
      simp only [replaceFirst, hpre, if_true]
      have : List.drop (ph :: pt).length ((ph :: pt) ++ b) = b := List.drop_left _ _
      simp only [List.cons_append] at this
      rw [this]
  | cons d x' ih =>
    have hbf : prefB pat ((d :: x') ++ pat ++ b) = false := by
      by_cases hb : prefB pat ((d :: x') ++ pat ++ b) = true
      · exfalso
        rcases (prefB_iff _ _).1 hb with ⟨t, ht⟩
        rw [List.append_assoc] at ht
        by_cases hlen : pat.length ≤ (d :: x').length
        · rcases exists_of_append_eq_of_le (t := t) ht hlen with ⟨u, hu⟩
          exact hx ⟨[], u, by simpa using hu⟩
        · have hle : (d :: x').length ≤ pat.length := Nat.le_of_lt (Nat.lt_of_not_le hlen)
          have hpe := eq_append_take_of_ge (t := t) ht hle
          have hL : (d :: x').getLast? = some ((d :: x').getLast (by simp)) :=
            List.getLast?_eq_getLast _ _
          apply hlast _ hL
          rw [hpe]
          exact List.mem_append_left _ (List.getLast_mem _)
      · exact Bool.eq_false_iff.mpr hb
    have hstep : replaceFirst pat r ((d :: x') ++ pat ++ b) =
        d :: replaceFirst pat r (x' ++ pat ++ b) := by
      simp only [List.cons_append, List.append_assoc] at hbf ⊢
      simp [replaceFirst, hbf]
    rw [hstep]
    have hx' : ¬ Occurs pat x' := fun ho => hx (occurs_cons_of_tail ho)
    have hlast' : ∀ c, x'.getLast? = some c → c ∉ pat := by
      intro c hcc
      cases x' with
      | nil => simp at hcc
      | cons e l =>
        apply hlast
        rw [List.getLast?_cons_cons]
        exact hcc
    rw [ih hx' hlast']
    simp

/-- The character of a decimal digit. -/
def digitChar (n : Nat) : Char := Char.ofNat (48 + n)

def natDigitsAux : Nat → Nat → List Char
  | 0, _ => []
  | f + 1, n =>
    if n < 10 then [digitChar n]
    else natDigitsAux f (n / 10) ++ [digitChar (n % 10)]

/-- Decimal representation of a natural number, as produced by JS template
interpolation of a number value. -/
def natDigits (n : Nat) : List Char := natDigitsAux (n + 1) n

theorem natDigitsAux_irrel (n : Nat) : ∀ f g, n < f → n < g →
    natDigitsAux f n = natDigitsAux g n := by
  induction n using Nat.strong_induction_on with
  | _ n ih =>
    intro f g hf hg
    match f, g with
    | f + 1, g + 1 =>
      by_cases h10 : n < 10
      · simp [natDigitsAux, h10]
      · have hd : n / 10 < n := Nat.div_lt_self (by omega) (by omega)
        simp only [natDigitsAux, if_neg h10]
        rw [ih (n / 10) hd f g (by omega) (by omega)]

theorem natDigits_unfold (n : Nat) :
    natDigits n =
      if n < 10 then [digitChar n]
      else natDigits (n / 10) ++ [digitChar (n % 10)] := by
  show natDigitsAux (n + 1) n = _
  by_cases h10 : n < 10
  · simp [natDigitsAux, h10]
  · have hd : n / 10 < n := Nat.div_lt_self (by omega) (by omega)
    simp only [natDigitsAux, if_neg h10]
    rw [natDigitsAux_irrel (n / 10) n (n / 10 + 1) (by omega) (by omega)]
    rfl

theorem digitChar_toNat {n : Nat} (h : n < 10) : (digitChar n).toNat = 48 + n := by
  have hv : (48 + n).isValidChar := Or.inl (by omega)
  rw [digitChar, Char.ofNat, dif_pos hv]
  rfl

theorem natDigits_range (n : Nat) :
    ∀ c ∈ natDigits n, 48 ≤ c.toNat ∧ c.toNat ≤ 57 := by
  induction n using Nat.strong_induction_on with
  | _ n ih =>
    rw [natDigits_unfold]
    by_cases h10 : n < 10
    · rw [if_pos h10]
      intro c hc
      simp only [List.mem_singleton] at hc
      subst hc
      rw [digitChar_toNat h10]
      omega
    · rw [if_neg h10]
      intro c hc
      rcases List.mem_append.mp hc with h1 | h1
      · exact ih (n / 10) (Nat.div_lt_self (by omega) (by omega)) c h1
      · simp only [List.mem_singleton] at h1
        subst h1
        rw [digitChar_toNat (Nat.mod_lt n (by omega))]
        have := Nat.mod_lt n (show 0 < 10 by omega)
        omega

theorem natDigits_ne_nil (n : Nat) : natDigits n ≠ [] := by
  rw [natDigits_unfold]
  by_cases h10 : n < 10
  · simp [h10]
  · simp [h10]

/-- Numeric value of a decimal digit string. -/
def digitsVal (l : List Char) : Nat := l.foldl (fun a c => a * 10 + (c.toNat - 48)) 0

theorem digitsVal_natDigits (n : Nat) : digitsVal (natDigits n) = n := by
  induction n using Nat.strong_induction_on with
  | _ n ih =>
    rw [natDigits_unfold]
    by_cases h10 : n < 10
    · rw [if_pos h10]
      simp [digitsVal, digitChar_toNat h10]
    · rw [if_neg h10]
      have hd : n / 10 < n := Nat.div_lt_self (by omega) (by omega)
      have hv := ih (n / 10) hd
      simp only [digitsVal, List.foldl_append] at hv ⊢
      rw [hv]
      simp only [List.foldl_cons, List.foldl_nil]
      rw [digitChar_toNat (Nat.mod_lt n (by omega))]
      have := Nat.div_add_mod n 10
      omega

theorem natDigits_inj {m n : Nat} (h : natDigits m = natDigits n) : m = n := by
  have := congrArg digitsVal h
  rwa [digitsVal_natDigits, digitsVal_natDigits] at this

theorem not_mem_natDigits {c : Char} (n : Nat)
    (hc : c.toNat < 48 ∨ 57 < c.toNat) : c ∉ natDigits n := by
  intro hmem
  have := natDigits_range n c hmem
  omega

theorem digits_free_of_no_digit {p : List Char}
    (hp : ∀ c ∈ p, c.toNat < 48 ∨ 57 < c.toNat) (n : Nat) :
    ∀ c ∈ natDigits n, c ∉ p := by
  intro c hc hcp
  have h1 := natDigits_range n c hc
  have h2 := hp c hcp
  omega

theorem not_occurs_of_missing_char {p s : List Char} {c : Char}
    (hcp : c ∈ p) (hcs : c ∉ s) : ¬ Occurs p s :=
  fun h => hcs (occurs_chars h c hcp)

theorem occurs_insert_elim {p mid x b : List Char} (hp : p ≠ []) {lc rc : Char}
    (hlc : lc ∉ p) (hrc : rc ∉ p) (hmid : ¬ Occurs p mid) :
    Occurs p (x ++ (lc :: (mid ++ [rc])) ++ b) → Occurs p x ∨ Occurs p b := by
  intro h
  have heq : x ++ (lc :: (mid ++ [rc])) ++ b = x ++ lc :: (mid ++ rc :: b) := by simp
  rw [heq] at h
  rcases occurs_split_at hp hlc x _ h with h1 | h1
  · exact Or.inl h1
  · rcases occurs_split_at hp hrc mid b h1 with h2 | h2
    · exact absurd h2 hmid
    · exact Or.inr h2

theorem not_mem_mid_append {c : Char} {l1 l2 : List Char} (h1 : c ∉ l1)
    (h2 : c ∉ l2) (hd : c.toNat < 48 ∨ 57 < c.toNat) (n : Nat) :
    c ∉ l1 ++ natDigits n ++ l2 := by
  intro hmem
  rcases List.mem_append.mp hmem with h | h
  · rcases List.mem_append.mp h with h' | h'
    · exact h1 h'
    · exact not_mem_natDigits n hd h'
  · exact h2 h

/-- A presentation package: association list from entry path to text
content, the model of `pptx.files` of the archive library. -/
def Package := List (List Char × List Char)

/-- Lookup of `pptx.files[key]`. -/
def getFile : Package → List Char → Option (List Char)
  | [], _ => none
  | (k, v) :: rest, key => if k = key then some v else getFile rest key

/-- Entry write `pptx.file(key, v)`: overwrite in place or append. -/
def putFile : Package → List Char → List Char → Package
  | [], key, v => [(key, v)]
  | (k, w) :: rest, key, v =>
    if k = key then (key, v) :: rest else (k, w) :: putFile rest key v

/-- A slide record as submitted in the `slides` form field of the request. -/
structure Slide where
  slideNumber : Nat
  title : List Char
  content : List Char
  script : Option (List Char)

/-- JS `slide.script || ''`. -/
def scriptOrEmpty (s : Slide) : List Char := s.script.getD []

/-- The apostrophe character. -/
def apos : Char := Char.ofNat 39

/-- XML-illegal control characters stripped by the synthesizer
(`[\x00-\x08\x0B\x0C\x0E-\x1F\x7F]`, source line 183). -/
def isXmlControl (c : Char) : Bool :=
  (c.toNat ≤ 8) || (c.toNat = 11) || (c.toNat = 12) ||
    (14 ≤ c.toNat && c.toNat ≤ 31) || (c.toNat = 127)

/-- The escaping chain of `createNotesXml` (source lines 177–183): the five
XML-significant characters first (`&` before the others), then control
characters are removed. -/
def escapeXml (s : List Char) : List Char :=
  List.filter (fun c => !isXmlControl c)
    (replaceAllChar apos "&apos;".toList
      (replaceAllChar '"' "&quot;".toList
        (replaceAllChar '>' "&gt;".toList
          (replaceAllChar '<' "&lt;".toList
            (replaceAllChar '&' "&amp;".toList s)))))

def notesTplA : List Char :=
  ("<?xml version=\"1.0\" encoding=\"UTF-8\" standalone=\"yes\"?>\n<p:notes xmlns:a=\"http://schemas.openxmlformats.org/drawingml/2006/main\" xmlns:r=\"http://schemas.openxmlformats.org/officeDocument/2006/relationships\" xmlns:p=\"http://schemas.openxmlformats.org/presentationml/2006/main\">\n  <p:cSld>\n    <p:spTree>\n      <p:nvGrpSpPr>\n        <p:cNvPr id=\"1\" name=\"\"/>\n        <p:cNvGrpSpPr/>\n        <p:nvPr/>\n      </p:nvGrpSpPr>\n      <p:grpSpPr>\n        <a:xfrm>\n          <a:off x=\"0\" y=\"0\"/>\n          <a:ext cx=\"0\" cy=\"0\"/>\n          <a:chOff x=\"0\" y=\"0\"/>\n          <a:chExt cx=\"0\" cy=\"0\"/>\n        </a:xfrm>\n      </p:grpSpPr>\n      <p:sp>\n        <p:nvSpPr>\n          <p:cNvPr id=\"2\" name=\"Slide Image Placeholder ").toList

def notesTplB : List Char :=
  ("\"/>\n          <p:cNvSpPr>\n            <a:spLocks noGrp=\"1\" noRot=\"1\" noChangeAspect=\"1\"/>\n          </p:cNvSpPr>\n          <p:nvPr>\n            <p:ph type=\"sldImg\"/>\n          </p:nvPr>\n        </p:nvSpPr>\n        <p:spPr>\n          <a:xfrm>\n            <a:off x=\"685800\" y=\"685800\"/>\n            <a:ext cx=\"6858000\" cy=\"5143500\"/>\n          </a:xfrm>\n        </p:spPr>\n      </p:sp>\n      <p:sp>\n        <p:nvSpPr>\n          <p:cNvPr id=\"3\" name=\"Notes Placeholder ").toList

def notesTplC : List Char :=
  ("\"/>\n          <p:cNvSpPr>\n            <a:spLocks noGrp=\"1\"/>\n          </p:cNvSpPr>\n          <p:nvPr>\n            <p:ph type=\"body\" idx=\"1\"/>\n          </p:nvPr>\n        </p:nvSpPr>\n        <p:spPr>\n          <a:xfrm>\n            <a:off x=\"685800\" y=\"6000000\"/>\n            <a:ext cx=\"6858000\" cy=\"4114800\"/>\n          </a:xfrm>\n        </p:spPr>\n        <p:txBody>\n          <a:bodyPr/>\n          <a:lstStyle/>\n          <a:p>\n            <a:r>\n              <a:rPr lang=\"nl-NL\" dirty=\"0\" smtClean=\"0\"/>\n              ").toList

def notesTplD : List Char :=
  ("\n            </a:r>\n            <a:endParaRPr lang=\"nl-NL\" dirty=\"0\"/>\n          </a:p>\n        </p:txBody>\n      </p:sp>\n    </p:spTree>\n  </p:cSld>\n  <p:clrMapOvr>\n    <a:masterClrMapping/>\n  </p:clrMapOvr>\n</p:notes>").toList

/-- `createNotesXml(scriptText, slideNumber)` (source lines 175–253): the
fixed notes-slide template with the slide ordinal interpolated twice and
the escaped narration as the text content of the `<a:t>` element. -/
def createNotesXml (scriptText : List Char) (slideNumber : Nat) : List Char :=
  notesTplA ++ natDigits slideNumber ++ notesTplB ++ natDigits slideNumber ++
    notesTplC ++ "<a:t>".toList ++ escapeXml scriptText ++ "</a:t>".toList ++
    notesTplD

/-- One element of the source's slide-id regular expression: a literal
character or a greedy negated character class `[^c]*`. -/
inductive RItem where
  | lit : Char → RItem
  | notStar : Char → RItem

/-- Length of the maximal leading run of characters different from `c`. -/
def leadCount (c : Char) : List Char → Nat
  | [] => 0
  | a :: s => if a = c then 0 else leadCount c s + 1

mutual

/-- Backtracking matcher: number of characters of `s` consumed by `items`
when a match is anchored at the start, fuel-bounded. -/
def reTryF : Nat → List RItem → List Char → Option Nat
  | 0, _, _ => none
  | _ + 1, [], _ => some 0
  | _ + 1, RItem.lit _ :: _, [] => none
  | f + 1, RItem.lit c :: rs, x :: xs =>
    if x = c then (reTryF f rs xs).map (· + 1) else none
  | f + 1, RItem.notStar c :: rs, s => reStarF f c rs s (leadCount c s)

/-- Greedy `[^c]*` with backtracking: try consuming `j` characters first,
counting down on failure of the remainder. -/
def reStarF : Nat → Char → List RItem → List Char → Nat → Option Nat
  | 0, _, _, _, _ => none
  | f + 1, _, rs, s, 0 => reTryF f rs s
  | f + 1, c, rs, s, j + 1 =>
    match reTryF f rs (List.drop (j + 1) s) with
    | some m => some (j + 1 + m)
    | none => reStarF f c rs s j

end

/-- Leftmost regex match (JS semantics): start index and match length. -/
def reSearch (fuel : Nat) (items : List RItem) : List Char → Option (Nat × Nat)
  | [] =>
    match reTryF fuel items [] with
    | some len => some (0, len)
    | none => none
  | c :: rest =>
    match reTryF fuel items (c :: rest) with
    | some len => some (0, len)
    | none =>
      match reSearch fuel items rest with
      | some (st, len) => some (st + 1, len)
      | none => none

def litItems (s : List Char) : List RItem := s.map RItem.lit

/-- Root/presentation notes relationship id, `rId${1000 + slideNumber}`
("Use high IDs to avoid conflicts", source line 97; also lines 50 and 55). -/
def newRootRelId (slideNumber : Nat) : Nat := 1000 + slideNumber

/-- Per-slide notes relationship id, `rId${100 + slideNumber}` (line 131). -/
def newSlideRelId (slideNumber : Nat) : Nat := 100 + slideNumber

/-- The regex of source line 47:
`<p:sldId[^>]*id="[^"]*"[^>]*r:id="rId${slideNumber + 1}"[^>]*/>`. -/
def sldIdItems (slideNumber : Nat) : List RItem :=
  litItems "<p:sldId".toList ++ [RItem.notStar '>'] ++
    litItems "id=\"".toList ++ [RItem.notStar '"'] ++ [RItem.lit '"'] ++
    [RItem.notStar '>'] ++
    litItems ("r:id=\"rId".toList ++ natDigits (slideNumber + 1) ++ "\"".toList) ++
    [RItem.notStar '>'] ++ litItems "/>".toList

def reFuel (s : List Char) : Nat := 8 * s.length + 200

/-- The probe of source line 50, `r:id="rId${1000 + slideNumber}"`. -/
def notesRefProbe (slideNumber : Nat) : List Char :=
  "r:id=\"rId".toList ++ natDigits (newRootRelId slideNumber) ++ "\"".toList

/-- Replacement text of source line 55: `' notes="rId${1000+slideNumber}"/>'`. -/
def notesAttrRepl (slideNumber : Nat) : List Char :=
  " notes=\"rId".toList ++ natDigits (newRootRelId slideNumber) ++ "\"/>".toList

/-- Source lines 46–58: if the slide-id regex matches `presentation.xml` and
the notes-reference probe is absent, rewrite the first match, replacing its
first `/>` by the notes attribute. -/
def updPres (presXml : List Char) (slideNumber : Nat) : List Char :=
  match reSearch (reFuel presXml) (sldIdItems slideNumber) presXml with
  | none => presXml
  | some (st, len) =>
    if infB (notesRefProbe slideNumber) presXml then presXml
    else
      List.take st presXml ++
        replaceFirst "/>".toList (notesAttrRepl slideNumber)
          (List.take len (List.drop st presXml)) ++
        List.drop (st + len) presXml

def presPath : List Char := "ppt/presentation.xml".toList

def ctPath : List Char := "[Content_Types].xml".toList

def rootRelsPath : List Char := "ppt/_rels/presentation.xml.rels".toList

/-- `ppt/notesSlides/notesSlide${slideNumber}.xml` (source line 36). -/
def notesPath (slideNumber : Nat) : List Char :=
  "ppt/notesSlides/notesSlide".toList ++ natDigits slideNumber ++ ".xml".toList

/-- `ppt/slides/_rels/slide${slideNumber}.xml.rels` (source line 114). -/
def slideRelsPath (slideNumber : Nat) : List Char :=
  "ppt/slides/_rels/slide".toList ++ natDigits slideNumber ++ ".xml.rels".toList

/-- The notes-slide MIME type string (source line 70). -/
def mimeType : List Char :=
  "application/vnd.openxmlformats-officedocument.presentationml.notesSlide+xml".toList

def typesClose : List Char := "</Types>".toList

def relsClose : List Char := "</Relationships>".toList

def overrideForA : List Char := "  <Override PartName=\"/ppt/notesSlides/notesSlide".toList

def overrideForB : List Char := ".xml\" ContentType=\"".toList

/-- The manifest override inserted for slide `i` (source lines 73 and 80). -/
def overrideFor (i : Nat) : List Char :=
  overrideForA ++ natDigits i ++ overrideForB ++ mimeType ++ "\"/>".toList

/-- One insertion `contentTypes.replace('</Types>', override + '\n</Types>')`. -/
def addOverride (i : Nat) (ct : List Char) : List Char :=
  replaceFirst typesClose (overrideFor i ++ "\n".toList ++ typesClose) ct

/-- The manifest rewrite of source lines 70–82 as a pure function: guarded by
the MIME presence check, then one unconditional insertion for slide 1 and a
loop `for (i = 2; i <= slides.length; i++)`. -/
def ctTransform (n : Nat) (ct : List Char) : List Char :=
  if infB mimeType ct then ct
  else List.foldl (fun acc i => addOverride i acc) (addOverride 1 ct) (countUp 2 (n - 1))

/-- Source lines 64–87: update `[Content_Types].xml` when present; no write
at all when the MIME string is already present. -/
def updateContentTypes (pptx : Package) (n : Nat) : Package :=
  match getFile pptx ctPath with
  | none => pptx
  | some ct =>
    if infB mimeType ct then pptx
    else
      putFile pptx ctPath
        (List.foldl (fun acc i => addOverride i acc) (addOverride 1 ct) (countUp 2 (n - 1)))

/-- Probe of source line 99: `notesSlides/notesSlide${slideNumber}.xml`. -/
def rootRelProbe (i : Nat) : List Char :=
  "notesSlides/notesSlide".toList ++ natDigits i ++ ".xml".toList

def relEntryLead : List Char := "  <Relationship Id=\"rId".toList

def rootRelEntryB : List Char :=
  "\" Type=\"http://schemas.openxmlformats.org/officeDocument/2006/relationships/notesSlide\" Target=\"notesSlides/notesSlide".toList

/-- The root relationship entry inserted for slide `i` (source line 102). -/
def rootRelEntry (i : Nat) : List Char :=
  relEntryLead ++ natDigits (newRootRelId i) ++ rootRelEntryB ++ natDigits i ++ ".xml\"/>".toList

/-- One guarded insertion of source lines 99–104. -/
def addRootRel (i : Nat) (rels : List Char) : List Char :=
  if infB (rootRelProbe i) rels then rels
  else replaceFirst relsClose (rootRelEntry i ++ "\n".toList ++ relsClose) rels

/-- The loop of source lines 95–105 over slide ordinals 1..n. -/
def relsTransform (n : Nat) (rels : List Char) : List Char :=
  List.foldl (fun acc i => addRootRel i acc) rels (countUp 1 n)

/-- Source lines 89–109: rewrite `ppt/_rels/presentation.xml.rels` when the
part exists (the rewritten text is always written back). -/
def updateRootRels (pptx : Package) (n : Nat) : Package :=
  match getFile pptx rootRelsPath with
  | none => pptx
  | some rels => putFile pptx rootRelsPath (relsTransform n rels)

def fabricatedA : List Char :=
  ("<?xml version=\"1.0\" encoding=\"UTF-8\" standalone=\"yes\"?>\n<Relationships xmlns=\"http://schemas.openxmlformats.org/officeDocument/2006/relationships\">\n  <Relationship Id=\"rId1\" Type=\"http://schemas.openxmlformats.org/officeDocument/2006/relationships/slideLayout\" Target=\"../slideLayouts/slideLayout1.xml\"/>\n").toList

/-- The fabricated minimal per-slide relationship file of source
lines 124–127. -/
def fabricatedSlideRels : List Char := fabricatedA ++ relsClose

/-- Probe of source line 132: `../notesSlides/notesSlide${slideNumber}.xml`. -/
def slideNotesProbe (i : Nat) : List Char :=
  "../notesSlides/notesSlide".toList ++ natDigits i ++ ".xml".toList

def slideNotesEntryB : List Char :=
  "\" Type=\"http://schemas.openxmlformats.org/officeDocument/2006/relationships/notesSlide\" Target=\"../notesSlides/notesSlide".toList

/-- The per-slide relationship entry inserted for slide `i` (source line 135). -/
def slideNotesEntry (i : Nat) : List Char :=
  relEntryLead ++ natDigits (newSlideRelId i) ++ slideNotesEntryB ++ natDigits i ++ ".xml\"/>".toList

/-- One iteration of the loop of source lines 112–140: read or fabricate the
per-slide relationship file; append and write only when the probe is absent. -/
def slideRelsStep (pptx : Package) (i : Nat) : Package :=
  let slideRels := (getFile pptx (slideRelsPath i)).getD fabricatedSlideRels
  if infB (slideNotesProbe i) slideRels then pptx
  else
    putFile pptx (slideRelsPath i)
      (replaceFirst relsClose (slideNotesEntry i ++ "\n".toList ++ relsClose) slideRels)

def updateSlideRels (pptx : Package) (n : Nat) : Package :=
  List.foldl slideRelsStep pptx (countUp 1 n)

/-- The loop of source lines 33–59: write each notes part and accumulate the
`presentation.xml` rewrite; `i` is the 0-based loop index. -/
def processSlides : Package → List Char → Nat → List Slide → Package × List Char
  | pptx, presXml, _, [] => (pptx, presXml)
  | pptx, presXml, i, slide :: rest =>
    processSlides
      (putFile pptx (notesPath (i + 1)) (createNotesXml (scriptOrEmpty slide) (i + 1)))
      (updPres presXml (i + 1)) (i + 1) rest

def attachNotesErr : List Char :=
  "Invalid PowerPoint file: missing presentation.xml".toList

/-- The handler body after the precondition check (source lines 29–140). -/
def patched (pptx : Package) (pres0 : List Char) (slides : List Slide) : Package :=
  updateSlideRels
    (updateRootRels
      (updateContentTypes
        (putFile (processSlides pptx pres0 0 slides).1 presPath
          (processSlides pptx pres0 0 slides).2)
        slides.length)
      slides.length)
    slides.length

/-- The POST handler of `add-notes/route.ts` as a function of its decoded
inputs (source lines 17–172): the missing-presentation precondition aborts
with the thrown message before any part is written. -/
def attachNotes (pptx : Package) (slides : List Slide) : Except (List Char) Package :=
  match getFile pptx presPath with
  | none => Except.error attachNotesErr
  | some pres0 => Except.ok (patched pptx pres0 slides)

/-- Modelled from the spec: the parse-back of XML text content (entity
decoding), used to state the escaping round-trip property; the repository
itself contains no XML parser. -/
def decodeEntities : List Char → List Char
  | [] => []
  | c :: rest =>
    if prefB "&amp;".toList (c :: rest) then
      '&' :: decodeEntities (List.drop 5 (c :: rest))
    else if prefB "&lt;".toList (c :: rest) then
      '<' :: decodeEntities (List.drop 4 (c :: rest))
    else if prefB "&gt;".toList (c :: rest) then
      '>' :: decodeEntities (List.drop 4 (c :: rest))
    else if prefB "&quot;".toList (c :: rest) then
      '"' :: decodeEntities (List.drop 6 (c :: rest))
    else if prefB "&apos;".toList (c :: rest) then
      apos :: decodeEntities (List.drop 6 (c :: rest))
    else c :: decodeEntities rest
termination_by s => s.length
decreasing_by
  all_goals simp [List.length_drop]
  all_goals omega

theorem getFile_putFile_same (p : Package) (k v : List Char) :
    getFile (putFile p k v) k = some v := by
  induction p with
  | nil => simp [putFile, getFile]
  | cons e rest ih =>
    obtain ⟨k', w⟩ := e
    by_cases hk : k' = k
    · simp [putFile, getFile, hk]
    · simp [putFile, getFile, hk, ih]

theorem getFile_putFile_other (p : Package) {k k' : List Char}
    (h : k' ≠ k) (v : List Char) :
    getFile (putFile p k v) k' = getFile p k' := by
  induction p with
  | nil => simp [putFile, getFile, Ne.symm h]
  | cons e rest ih =>
    obtain ⟨k0, w⟩ := e
    by_cases hk : k0 = k
    · subst hk
      simp [putFile, getFile, Ne.symm h]
    · simp only [putFile, if_neg hk, getFile]
      by_cases hk' : k0 = k'
      · simp [hk']
      · simp [hk', ih]

theorem getFile_putFile_isSome (p : Package) (k k' v : List Char)
    (h : (getFile p k').isSome) : (getFile (putFile p k v) k').isSome := by
  by_cases hk : k' = k
  · subst hk
    rw [getFile_putFile_same]
    rfl
  · rwa [getFile_putFile_other p hk v]

theorem ne_of_take_ne {n : Nat} {s t : List Char}
    (h : s.take n ≠ t.take n) : s ≠ t := fun he => h (he ▸ rfl)

theorem take5_notesPath (n : Nat) : (notesPath n).take 5 = "ppt/n".toList := by
  simp only [notesPath, List.append_assoc]
  rw [take_append_of_le_len _ (by decide)]
  decide

theorem take5_slideRelsPath (n : Nat) :
    (slideRelsPath n).take 5 = "ppt/s".toList := by
  simp only [slideRelsPath, List.append_assoc]
  rw [take_append_of_le_len _ (by decide)]
  decide

theorem notesPath_ne_presPath (n : Nat) : notesPath n ≠ presPath := by
  apply ne_of_take_ne (n := 5)
  rw [take5_notesPath]
  decide

theorem notesPath_ne_ctPath (n : Nat) : notesPath n ≠ ctPath := by
  apply ne_of_take_ne (n := 5)
  rw [take5_notesPath]
  decide

theorem notesPath_ne_rootRelsPath (n : Nat) : notesPath n ≠ rootRelsPath := by
  apply ne_of_take_ne (n := 5)
  rw [take5_notesPath]
  decide

theorem notesPath_ne_slideRelsPath (n m : Nat) :
    notesPath n ≠ slideRelsPath m := by
  apply ne_of_take_ne (n := 5)
  rw [take5_notesPath, take5_slideRelsPath]
  decide

theorem slideRelsPath_ne_presPath (n : Nat) : slideRelsPath n ≠ presPath := by
  apply ne_of_take_ne (n := 5)
  rw [take5_slideRelsPath]
  decide

theorem slideRelsPath_ne_ctPath (n : Nat) : slideRelsPath n ≠ ctPath := by
  apply ne_of_take_ne (n := 5)
  rw [take5_slideRelsPath]
  decide

theorem slideRelsPath_ne_rootRelsPath (n : Nat) :
    slideRelsPath n ≠ rootRelsPath := by
  apply ne_of_take_ne (n := 5)
  rw [take5_slideRelsPath]
  decide

theorem notesPath_inj {m n : Nat} (h : notesPath m = notesPath n) : m = n := by
  simp only [notesPath] at h
  have h1 := List.append_cancel_right h
  exact natDigits_inj (List.append_cancel_left h1)

theorem slideRelsPath_inj {m n : Nat} (h : slideRelsPath m = slideRelsPath n) :
    m = n := by
  simp only [slideRelsPath] at h
  have h1 := List.append_cancel_right h
  exact natDigits_inj (List.append_cancel_left h1)

theorem replaceAllChar_append (c : Char) (r x y : List Char) :
    replaceAllChar c r (x ++ y) =
      replaceAllChar c r x ++ replaceAllChar c r y := by
  induction x with
  | nil => rfl
  | cons a s ih => simp [replaceAllChar, ih]

/-- Per-character action of the escaping chain of `createNotesXml`. -/
def encodeChar (c : Char) : List Char :=
  if c = '&' then "&amp;".toList
  else if c = '<' then "&lt;".toList
  else if c = '>' then "&gt;".toList
  else if c = '"' then "&quot;".toList
  else if c = apos then "&apos;".toList
  else if isXmlControl c then []
  else [c]

theorem escapeXml_cons (a : Char) (s : List Char) :
    escapeXml (a :: s) = encodeChar a ++ escapeXml s := by
  have h1 : replaceAllChar '&' "&amp;".toList (a :: s) =
      (if a = '&' then "&amp;".toList else [a]) ++
        replaceAllChar '&' "&amp;".toList s := rfl
  simp only [escapeXml, h1, replaceAllChar_append, List.filter_append]
  congr 1
  by_cases h2 : a = '&'
  · subst h2; rfl
  · rw [if_neg h2]
    by_cases h3 : a = '<'
    · subst h3; rfl
    · by_cases h4 : a = '>'
      · subst h4; rfl
      · by_cases h5 : a = '"'
        · subst h5; rfl
        · by_cases h6 : a = apos
          · subst h6; rfl
          · have hs2 : replaceAllChar '<' "&lt;".toList [a] = [a] := by
              simp [replaceAllChar, h3]
            have hs3 : replaceAllChar '>' "&gt;".toList [a] = [a] := by
              simp [replaceAllChar, h4]
            have hs4 : replaceAllChar '"' "&quot;".toList [a] = [a] := by
              simp [replaceAllChar, h5]
            have hs5 : replaceAllChar apos "&apos;".toList [a] = [a] := by
              simp [replaceAllChar, h6]
            rw [hs2, hs3, hs4, hs5, encodeChar, if_neg h2, if_neg h3, if_neg h4,
              if_neg h5, if_neg h6]
            by_cases h7 : isXmlControl a
            · simp [List.filter, h7]
            · simp [List.filter, h7]

theorem escapeXml_eq_concatMap (s : List Char) :
    escapeXml s = concatMap encodeChar s := by
  induction s with
  | nil => rfl
  | cons a s ih => rw [escapeXml_cons, concatMap, ih]

theorem prefB_cons_head_ne {ph a : Char} (hne : ph ≠ a) (ps t : List Char) :
    prefB (ph :: ps) (a :: t) = false := by
  simp [prefB, hne]

theorem decode_cons_other {a : Char} (h : a ≠ '&') (t : List Char) :
    decodeEntities (a :: t) = a :: decodeEntities t := by
  have hne : ('&' : Char) ≠ a := Ne.symm h
  simp [decodeEntities, prefB_cons_head_ne hne]

theorem decode_amp (t : List Char) :
    decodeEntities ("&amp;".toList ++ t) = '&' :: decodeEntities t := by
  simp [decodeEntities, prefB]

theorem decode_lt (t : List Char) :
    decodeEntities ("&lt;".toList ++ t) = '<' :: decodeEntities t := by
  simp [decodeEntities, prefB]

theorem decode_gt (t : List Char) :
    decodeEntities ("&gt;".toList ++ t) = '>' :: decodeEntities t := by
  simp [decodeEntities, prefB]

theorem decode_quot (t : List Char) :
    decodeEntities ("&quot;".toList ++ t) = '"' :: decodeEntities t := by
  simp [decodeEntities, prefB]

theorem decode_apos (t : List Char) :
    decodeEntities ("&apos;".toList ++ t) = apos :: decodeEntities t := by
  simp [decodeEntities, prefB]

theorem decode_concatMap (s : List Char) :
    decodeEntities (concatMap encodeChar s) =
      List.filter (fun c => !isXmlControl c) s := by
  induction s with
  | nil => simp [concatMap, decodeEntities]
  | cons a s ih =>
    show decodeEntities (encodeChar a ++ concatMap encodeChar s) = _
    by_cases h2 : a = '&'
    · subst h2
      rw [show encodeChar '&' = "&amp;".toList from rfl, decode_amp, ih]
      rfl
    · by_cases h3 : a = '<'
      · subst h3
        rw [show encodeChar '<' = "&lt;".toList from rfl, decode_lt, ih]
        rfl
      · by_cases h4 : a = '>'
        · subst h4
          rw [show encodeChar '>' = "&gt;".toList from rfl, decode_gt, ih]
          rfl
        · by_cases h5 : a = '"'
          · subst h5
            rw [show encodeChar '"' = "&quot;".toList from rfl, decode_quot, ih]
            rfl
          · by_cases h6 : a = apos
            · subst h6
              rw [show encodeChar apos = "&apos;".toList from rfl, decode_apos, ih]
              rfl
            · have henc : encodeChar a =
                  if isXmlControl a then [] else [a] := by
                rw [encodeChar, if_neg h2, if_neg h3, if_neg h4, if_neg h5, if_neg h6]
              by_cases h7 : isXmlControl a
              · rw [henc, if_pos h7, List.nil_append, ih, List.filter_cons,
                  Bool.eq_false_iff.mpr (by simp [h7] : ¬ (!isXmlControl a) = true)]
                simp
              · rw [henc, if_neg h7, List.cons_append, List.nil_append,
                  decode_cons_other h2, ih, List.filter_cons]
                have hb : (!isXmlControl a) = true := by simp [h7]
                rw [hb]
                simp

/-- C3: `createNotesXml` escapes the five XML-significant characters (with
`&` first) and strips the XML-illegal control characters; consequently the
text content it places between `<a:t>` and `</a:t>` decodes back to exactly
the input narration with the control characters removed and no entity
artifacts: `decodeEntities (escapeXml s)` is `s` filtered of control
characters, and the synthesized document embeds `escapeXml s` as the `a:t`
text content. -/
theorem C3_escaping_roundtrip (s : List Char) (n : Nat) :
    decodeEntities (escapeXml s) = List.filter (fun c => !isXmlControl c) s ∧
      ∃ a b, createNotesXml s n =
        a ++ ("<a:t>".toList ++ escapeXml s ++ "</a:t>".toList) ++ b := by
  constructor
  · rw [escapeXml_eq_concatMap]
    exact decode_concatMap s
  · refine ⟨notesTplA ++ natDigits n ++ notesTplB ++ natDigits n ++ notesTplC,
      notesTplD, ?_⟩
    simp [createNotesXml]

/-- C4: a package lacking the root presentation definition part
`ppt/presentation.xml` makes the patch operation fail with the single
descriptive error before any part is written: no output package is produced
at all, so the original bytes are untouched. -/
theorem C4_missing_presentation_aborts (pptx : Package) (slides : List Slide)
    (h : getFile pptx presPath = none) :
    attachNotes pptx slides = Except.error attachNotesErr := by
  simp [attachNotes, h]

theorem C4_missing_presentation_aborts_witness :
    getFile [] presPath = none ∧
      attachNotes [] [] = Except.error attachNotesErr :=
  ⟨rfl, C4_missing_presentation_aborts [] [] rfl⟩

/-- C2 counterexample: the claim quantifies over every number M of
pre-existing root relationships `rId1..rIdM` with no upper bound, but with
M = 1001 the identifier the code mints for slide 1, `rId(1000+1)`, lies in
the pre-existing band `1..1001`, so it equals the pre-existing `rId1001`. -/
theorem C2_counterexample :
    newRootRelId 1 = 1001 ∧ 1 ≤ newRootRelId 1 ∧ newRootRelId 1 ≤ 1001 := by
  refine ⟨rfl, ?_, ?_⟩ <;> decide

/-- C2 amended: for a package whose pre-existing root relationship
identifiers are `rId1..rIdM` with M ≤ 1000, no identifier `rId(1000+k)`
minted for a patched slide k ≥ 1 equals a pre-existing one. -/
theorem C2_root_ids_no_collision (M j k : Nat) (hM : M ≤ 1000)
    (hj1 : 1 ≤ j) (hjM : j ≤ M) (hk : 1 ≤ k) : newRootRelId k ≠ j := by
  simp only [newRootRelId]
  omega

theorem C2_root_ids_no_collision_witness :
    (3 ≤ 1000 ∧ 1 ≤ 2 ∧ 2 ≤ 3 ∧ 1 ≤ 1) ∧ newRootRelId 1 ≠ 2 :=
  ⟨by decide,
    C2_root_ids_no_collision 3 2 1 (by decide) (by decide) (by decide) (by decide)⟩

/-- A concrete `ppt/presentation.xml` whose slide list holds one entry with
relationship identifier rId2 (the position+1 convention for slide 1). -/
def presC7 : List Char :=
  ("<p:presentation><p:sldIdLst><p:sldId id=\"256\" r:id=\"rId2\"/></p:sldIdLst></p:presentation>").toList

/-- C7: the re-run guard is broken.  The code's guard (line 50) probes for
`r:id="rId1001"` but the insertion (line 55) writes `notes="rId1001"`, so on
a package already carrying the notes attribute the guard does not fire and a
second run appends the attribute again: one run of the presentation-part
step on `presC7` yields one `notes` attribute, the second run duplicates it
on the same entry, contradicting the claim (and the code's own comment
"Check if notes relationship already exists"). -/
theorem C7_rerun_duplicates_notes_attr :
    updPres presC7 1 =
      ("<p:presentation><p:sldIdLst><p:sldId id=\"256\" r:id=\"rId2\" notes=\"rId1001\"/></p:sldIdLst></p:presentation>").toList ∧
    updPres (updPres presC7 1) 1 =
      ("<p:presentation><p:sldIdLst><p:sldId id=\"256\" r:id=\"rId2\" notes=\"rId1001\" notes=\"rId1001\"/></p:sldIdLst></p:presentation>").toList := by
  constructor
  · rfl
  · rfl

theorem processSlides_fst_other (L : List Slide) (p : Package) (x : List Char)
    (i : Nat) {k : List Char}
    (hk : ∀ t, t < L.length → k ≠ notesPath (i + t + 1)) :
    getFile (processSlides p x i L).1 k = getFile p k := by
  induction L generalizing p x i with
  | nil => rfl
  | cons sl rest ih =>
    show getFile (processSlides
        (putFile p (notesPath (i + 1)) (createNotesXml (scriptOrEmpty sl) (i + 1)))
        (updPres x (i + 1)) (i + 1) rest).1 k = _
    rw [ih _ _ (i + 1) (fun t ht => by
      have h2 := hk (t + 1) (by simpa using Nat.succ_lt_succ ht)
      have he : i + (t + 1) + 1 = i + 1 + t + 1 := by omega
      rw [he] at h2
      exact h2)]
    exact getFile_putFile_other p (hk 0 (by simp)) _

theorem processSlides_fst_notes (L : List Slide) (p : Package) (x : List Char)
    (i : Nat) (t : Nat) (ht : t < L.length) :
    getFile (processSlides p x i L).1 (notesPath (i + t + 1)) =
      some (createNotesXml (scriptOrEmpty (L.get ⟨t, ht⟩)) (i + t + 1)) := by
  induction L generalizing p x i t with
  | nil => exact absurd ht (by simp)
  | cons sl rest ih =>
    cases t with
    | zero =>
      show getFile (processSlides
          (putFile p (notesPath (i + 1)) (createNotesXml (scriptOrEmpty sl) (i + 1)))
          (updPres x (i + 1)) (i + 1) rest).1 (notesPath (i + 0 + 1)) = _
      rw [processSlides_fst_other rest _ _ (i + 1) (fun t' ht' => by
        intro he
        have := notesPath_inj he
        omega)]
      exact getFile_putFile_same p _ _
    | succ t' =>
      show getFile (processSlides
          (putFile p (notesPath (i + 1)) (createNotesXml (scriptOrEmpty sl) (i + 1)))
          (updPres x (i + 1)) (i + 1) rest).1 (notesPath (i + (t' + 1) + 1)) = _
      have harith : i + (t' + 1) + 1 = (i + 1) + t' + 1 := by omega
      rw [harith]
      have ht'' : t' < rest.length := by simpa using Nat.lt_of_succ_lt_succ ht
      rw [ih _ _ (i + 1) t' ht'']
      rfl

theorem processSlides_fst_isSome (L : List Slide) (p : Package) (x : List Char)
    (i : Nat) (k : List Char) (h : (getFile p k).isSome) :
    (getFile (processSlides p x i L).1 k).isSome := by
  induction L generalizing p x i with
  | nil => exact h
  | cons sl rest ih =>
    exact ih _ _ (i + 1) (getFile_putFile_isSome p _ _ _ h)

theorem updateContentTypes_other (p : Package) (n : Nat) {k : List Char}
    (hk : k ≠ ctPath) : getFile (updateContentTypes p n) k = getFile p k := by
  cases hge : getFile p ctPath with
  | none => simp [updateContentTypes, hge]
  | some ct =>
    by_cases hm : infB mimeType ct = true
    · simp [updateContentTypes, hge, hm]
    · simp [updateContentTypes, hge, hm, getFile_putFile_other p hk]

theorem updateContentTypes_value (p : Package) (n : Nat) :
    getFile (updateContentTypes p n) ctPath =
      Option.map (ctTransform n) (getFile p ctPath) := by
  cases hge : getFile p ctPath with
  | none => simp [updateContentTypes, hge]
  | some ct =>
    by_cases hm : infB mimeType ct = true
    · simp [updateContentTypes, hge, hm, ctTransform]
    · simp [updateContentTypes, hge, hm, ctTransform, getFile_putFile_same]

theorem updateRootRels_other (p : Package) (n : Nat) {k : List Char}
    (hk : k ≠ rootRelsPath) : getFile (updateRootRels p n) k = getFile p k := by
  cases hge : getFile p rootRelsPath with
  | none => simp [updateRootRels, hge]
  | some rels => simp [updateRootRels, hge, getFile_putFile_other p hk]

theorem updateRootRels_value (p : Package) (n : Nat) :
    getFile (updateRootRels p n) rootRelsPath =
      Option.map (relsTransform n) (getFile p rootRelsPath) := by
  cases hge : getFile p rootRelsPath with
  | none => simp [updateRootRels, hge]
  | some rels => simp [updateRootRels, hge, getFile_putFile_same]

/-- The per-slide relationship part value produced by one loop iteration of
source lines 112–140, as a function of the part's previous value. -/
def srVal (i : Nat) : Option (List Char) → Option (List Char)
  | some s =>
    if infB (slideNotesProbe i) s then some s
    else some (replaceFirst relsClose
        (slideNotesEntry i ++ "\n".toList ++ relsClose) s)
  | none =>
    if infB (slideNotesProbe i) fabricatedSlideRels then none
    else some (replaceFirst relsClose
        (slideNotesEntry i ++ "\n".toList ++ relsClose) fabricatedSlideRels)

theorem slideRelsStep_other (p : Package) (i : Nat) {k : List Char}
    (hk : k ≠ slideRelsPath i) :
    getFile (slideRelsStep p i) k = getFile p k := by
  cases hge : getFile p (slideRelsPath i) with
  | none =>
    by_cases hm : infB (slideNotesProbe i) fabricatedSlideRels = true
    · simp [slideRelsStep, hge, Option.getD, hm]
    · simp [slideRelsStep, hge, Option.getD, hm, getFile_putFile_other p hk]
  | some s =>
    by_cases hm : infB (slideNotesProbe i) s = true
    · simp [slideRelsStep, hge, Option.getD, hm]
    · simp [slideRelsStep, hge, Option.getD, hm, getFile_putFile_other p hk]

theorem slideRelsStep_value (p : Package) (i : Nat) :
    getFile (slideRelsStep p i) (slideRelsPath i) =
      srVal i (getFile p (slideRelsPath i)) := by
  cases hge : getFile p (slideRelsPath i) with
  | none =>
    by_cases hm : infB (slideNotesProbe i) fabricatedSlideRels = true
    · simp [slideRelsStep, hge, Option.getD, hm, srVal]
    · simp [slideRelsStep, hge, Option.getD, hm, srVal, getFile_putFile_same]
  | some s =>
    by_cases hm : infB (slideNotesProbe i) s = true
    · simp [slideRelsStep, hge, Option.getD, hm, srVal]
    · simp [slideRelsStep, hge, Option.getD, hm, srVal, getFile_putFile_same]

theorem foldl_slideRelsStep_other (len : Nat) : ∀ (s : Nat) (p : Package)
    {k : List Char}, (∀ t, s ≤ t → t < s + len → k ≠ slideRelsPath t) →
    getFile (List.foldl slideRelsStep p (countUp s len)) k = getFile p k := by
  induction len with
  | zero => intro s p k hk; rfl
  | succ l ih =>
    intro s p k hk
    show getFile (List.foldl slideRelsStep (slideRelsStep p s) (countUp (s + 1) l)) k = _
    rw [ih (s + 1) _ (fun t h1 h2 => hk t (by omega) (by omega))]
    exact slideRelsStep_other p s (hk s (Nat.le_refl s) (by omega))

theorem foldl_slideRelsStep_value (len : Nat) : ∀ (s m : Nat) (p : Package),
    s ≤ m → m < s + len →
    getFile (List.foldl slideRelsStep p (countUp s len)) (slideRelsPath m) =
      srVal m (getFile p (slideRelsPath m)) := by
  induction len with
  | zero => intro s m p h1 h2; omega
  | succ l ih =>
    intro s m p h1 h2
    show getFile (List.foldl slideRelsStep (slideRelsStep p s) (countUp (s + 1) l))
        (slideRelsPath m) = _
    by_cases hm : m = s
    · subst hm
      rw [foldl_slideRelsStep_other l (m + 1) (slideRelsStep p m)
        (fun t h1' h2' he => by have := slideRelsPath_inj he; omega)]
      exact slideRelsStep_value p m
    · rw [ih (s + 1) m (slideRelsStep p s) (by omega) (by omega)]
      congr 1
      exact slideRelsStep_other p s (fun he => hm (slideRelsPath_inj he))

theorem updateSlideRels_other (p : Package) (n : Nat) {k : List Char}
    (hk : ∀ t, 1 ≤ t → t ≤ n → k ≠ slideRelsPath t) :
    getFile (updateSlideRels p n) k = getFile p k :=
  foldl_slideRelsStep_other n 1 p (fun t h1 h2 => hk t h1 (by omega))

theorem updateSlideRels_value (p : Package) (n m : Nat) (h1 : 1 ≤ m)
    (h2 : m ≤ n) :
    getFile (updateSlideRels p n) (slideRelsPath m) =
      srVal m (getFile p (slideRelsPath m)) :=
  foldl_slideRelsStep_value n 1 m p h1 (by omega)

theorem ctPath_ne_rootRelsPath : ctPath ≠ rootRelsPath := by decide

theorem ctPath_ne_presPath : ctPath ≠ presPath := by decide

theorem rootRelsPath_ne_presPath : rootRelsPath ≠ presPath := by decide

theorem attachNotes_ok {p : Package} {pres : List Char} (L : List Slide)
    (h : getFile p presPath = some pres) :
    attachNotes p L = Except.ok (patched p pres L) := by
  simp [attachNotes, h]

theorem patched_ct_value (p : Package) (pres : List Char) (L : List Slide) :
    getFile (patched p pres L) ctPath =
      Option.map (ctTransform L.length) (getFile p ctPath) := by
  rw [patched]
  rw [updateSlideRels_other _ _
    (fun t _ _ => Ne.symm (slideRelsPath_ne_ctPath t))]
  rw [updateRootRels_other _ _ ctPath_ne_rootRelsPath]
  rw [updateContentTypes_value]
  rw [getFile_putFile_other _ ctPath_ne_presPath]
  rw [processSlides_fst_other _ _ _ _
    (fun t _ => Ne.symm (notesPath_ne_ctPath _))]

theorem patched_root_value (p : Package) (pres : List Char) (L : List Slide) :
    getFile (patched p pres L) rootRelsPath =
      Option.map (relsTransform L.length) (getFile p rootRelsPath) := by
  rw [patched]
  rw [updateSlideRels_other _ _
    (fun t _ _ => Ne.symm (slideRelsPath_ne_rootRelsPath t))]
  rw [updateRootRels_value]
  rw [updateContentTypes_other _ _ (Ne.symm ctPath_ne_rootRelsPath)]
  rw [getFile_putFile_other _ rootRelsPath_ne_presPath]
  rw [processSlides_fst_other _ _ _ _
    (fun t _ => Ne.symm (notesPath_ne_rootRelsPath _))]

theorem patched_slideRels_value (p : Package) (pres : List Char)
    (L : List Slide) (m : Nat) (h1 : 1 ≤ m) (h2 : m ≤ L.length) :
    getFile (patched p pres L) (slideRelsPath m) =
      srVal m (getFile p (slideRelsPath m)) := by
  rw [patched]
  rw [updateSlideRels_value _ _ _ h1 h2]
  rw [updateRootRels_other _ _ (slideRelsPath_ne_rootRelsPath m)]
  rw [updateContentTypes_other _ _ (slideRelsPath_ne_ctPath m)]
  rw [getFile_putFile_other _ (slideRelsPath_ne_presPath m)]
  rw [processSlides_fst_other _ _ _ _
    (fun t _ => Ne.symm (notesPath_ne_slideRelsPath _ m))]

theorem patched_slideRels_outside (p : Package) (pres : List Char)
    (L : List Slide) (m : Nat) (hm : m = 0 ∨ L.length < m) :
    getFile (patched p pres L) (slideRelsPath m) =
      getFile p (slideRelsPath m) := by
  rw [patched]
  rw [updateSlideRels_other _ _
    (fun t ht1 ht2 he => by
      have := slideRelsPath_inj he
      rcases hm with hm | hm <;> omega)]
  rw [updateRootRels_other _ _ (slideRelsPath_ne_rootRelsPath m)]
  rw [updateContentTypes_other _ _ (slideRelsPath_ne_ctPath m)]
  rw [getFile_putFile_other _ (slideRelsPath_ne_presPath m)]
  rw [processSlides_fst_other _ _ _ _
    (fun t _ => Ne.symm (notesPath_ne_slideRelsPath _ m))]

theorem patched_notes_value (p : Package) (pres : List Char) (L : List Slide)
    (t : Nat) (ht : t < L.length) :
    getFile (patched p pres L) (notesPath (t + 1)) =
      some (createNotesXml (scriptOrEmpty (L.get ⟨t, ht⟩)) (t + 1)) := by
  rw [patched]
  rw [updateSlideRels_other _ _
    (fun u _ _ => notesPath_ne_slideRelsPath _ u)]
  rw [updateRootRels_other _ _ (notesPath_ne_rootRelsPath _)]
  rw [updateContentTypes_other _ _ (notesPath_ne_ctPath _)]
  rw [getFile_putFile_other _ (notesPath_ne_presPath _)]
  have h0 : (0 : Nat) + t + 1 = t + 1 := by omega
  rw [← h0]
  exact processSlides_fst_notes L p pres 0 t ht

theorem processSlides_script_congr (L1 : List Slide) : ∀ (L2 : List Slide)
    (p : Package) (x : List Char) (i : Nat),
    L1.map Slide.script = L2.map Slide.script →
    processSlides p x i L1 = processSlides p x i L2 := by
  induction L1 with
  | nil =>
    intro L2 p x i h
    cases L2 with
    | nil => rfl
    | cons b l2 => simp at h
  | cons a l1 ih =>
    intro L2 p x i h
    cases L2 with
    | nil => simp at h
    | cons b l2 =>
      simp only [List.map_cons, List.cons.injEq] at h
      have hs : scriptOrEmpty a = scriptOrEmpty b := by
        rw [scriptOrEmpty, scriptOrEmpty, h.1]
      show processSlides
          (putFile p (notesPath (i + 1)) (createNotesXml (scriptOrEmpty a) (i + 1)))
          (updPres x (i + 1)) (i + 1) l1 = _
      rw [hs]
      exact ih l2 _ _ _ h.2

/-- C10: the ordinal driving every derived artifact — the notes part path,
the reserved root relationship id 1000+k and per-slide relationship id
100+k — is the slide's 1-based position in the submitted list: two slide
lists whose records carry the same scripts (but arbitrary `slideNumber` and
`title`/`content` fields) patch identically, so the carried `slideNumber`
field is ignored; and the position-derived paths and ids are injective, so
distinct positions never collide. -/
theorem C10_ordinal_is_position (p : Package) (L1 L2 : List Slide)
    (h : L1.map Slide.script = L2.map Slide.script) :
    attachNotes p L1 = attachNotes p L2 ∧
      (∀ m n : Nat, notesPath m = notesPath n → m = n) ∧
      (∀ m n : Nat, slideRelsPath m = slideRelsPath n → m = n) ∧
      (∀ m n : Nat, newRootRelId m = newRootRelId n → m = n) ∧
      (∀ m n : Nat, newSlideRelId m = newSlideRelId n → m = n) := by
  refine ⟨?_, fun m n he => notesPath_inj he, fun m n he => slideRelsPath_inj he,
    fun m n he => by simpa [newRootRelId] using he,
    fun m n he => by simpa [newSlideRelId] using he⟩
  have hlen : L1.length = L2.length := by
    have := congrArg List.length h
    simpa using this
  cases hge : getFile p presPath with
  | none => simp [attachNotes, hge]
  | some pres =>
    rw [attachNotes_ok L1 hge, attachNotes_ok L2 hge]
    congr 1
    rw [patched, patched, processSlides_script_congr L1 L2 p pres 0 h, hlen]

theorem C10_ordinal_is_position_witness :
    ([Slide.mk 5 [] [] none].map Slide.script =
        [Slide.mk 99 "t".toList "c".toList none].map Slide.script) ∧
      (attachNotes [] [Slide.mk 5 [] [] none] =
          attachNotes [] [Slide.mk 99 "t".toList "c".toList none] ∧
        (∀ m n : Nat, notesPath m = notesPath n → m = n) ∧
        (∀ m n : Nat, slideRelsPath m = slideRelsPath n → m = n) ∧
        (∀ m n : Nat, newRootRelId m = newRootRelId n → m = n) ∧
        (∀ m n : Nat, newSlideRelId m = newSlideRelId n → m = n)) :=
  ⟨rfl, C10_ordinal_is_position [] _ _ rfl⟩

theorem slideNotesProbe_not_in_fabricated (m : Nat) :
    infB (slideNotesProbe m) fabricatedSlideRels = false := by
  by_cases h : infB (slideNotesProbe m) fabricatedSlideRels = true
  · exfalso
    have ho : Occurs (slideNotesProbe m) fabricatedSlideRels :=
      (occurs_iff_infB _ _).2 h
    have hsp : slideNotesProbe m =
        "../notesSlides/notesSlide".toList ++ (natDigits m ++ ".xml".toList) := by
      rw [slideNotesProbe, List.append_assoc]
    rw [hsp] at ho
    have ho2 := occurs_take_head ho
    have hcon := (occurs_iff_infB _ _).1 ho2
    exact absurd hcon (by decide)
  · exact Bool.eq_false_iff.mpr h

/-- C9: for a package containing `ppt/presentation.xml` but lacking
`[Content_Types].xml` or `ppt/_rels/presentation.xml.rels` (either one, or
both), the operation does not fail: it returns a package, the registration
step of each missing part is skipped entirely (a missing manifest stays
missing and gets no overrides; a missing root relationship part stays
missing and gets no notes relationships), while every notes part is written
with its synthesized content and every per-slide relationship part is
present in the returned package. -/
theorem C9_missing_manifest_tolerated (p : Package) (L : List Slide)
    (pres : List Char) (hp : getFile p presPath = some pres)
    (hmiss : getFile p ctPath = none ∨ getFile p rootRelsPath = none) :
    ∃ q, attachNotes p L = Except.ok q ∧
      (getFile p ctPath = none → getFile q ctPath = none) ∧
      (getFile p rootRelsPath = none → getFile q rootRelsPath = none) ∧
      (∀ t (ht : t < L.length),
        getFile q (notesPath (t + 1)) =
          some (createNotesXml (scriptOrEmpty (L.get ⟨t, ht⟩)) (t + 1))) ∧
      (∀ m, 1 ≤ m → m ≤ L.length → (getFile q (slideRelsPath m)).isSome) := by
  refine ⟨patched p pres L, attachNotes_ok L hp, ?_, ?_, ?_, ?_⟩
  · intro hct
    rw [patched_ct_value, hct]
    rfl
  · intro hrr
    rw [patched_root_value, hrr]
    rfl
  · exact fun t ht => patched_notes_value p pres L t ht
  · intro m h1 h2
    rw [patched_slideRels_value p pres L m h1 h2]
    cases hgs : getFile p (slideRelsPath m) with
    | none =>
      rw [srVal, if_neg (by rw [slideNotesProbe_not_in_fabricated m]; simp)]
      rfl
    | some s =>
      rw [srVal]
      by_cases hm : infB (slideNotesProbe m) s = true
      · rw [if_pos hm]
        rfl
      · rw [if_neg hm]
        rfl

theorem C9_missing_manifest_tolerated_witness :
    (getFile [(presPath, "x".toList), (ctPath, "<Types></Types>".toList)]
        presPath = some "x".toList ∧
      getFile [(presPath, "x".toList), (ctPath, "<Types></Types>".toList)]
        rootRelsPath = none) ∧
    ∃ q, attachNotes [(presPath, "x".toList),
        (ctPath, "<Types></Types>".toList)] [Slide.mk 1 [] [] none] =
        Except.ok q ∧
      (getFile [(presPath, "x".toList), (ctPath, "<Types></Types>".toList)]
          ctPath = none → getFile q ctPath = none) ∧
      (getFile [(presPath, "x".toList), (ctPath, "<Types></Types>".toList)]
          rootRelsPath = none → getFile q rootRelsPath = none) ∧
      (∀ t (ht : t < [Slide.mk 1 ([] : List Char) ([] : List Char)
          (none : Option (List Char))].length),
        getFile q (notesPath (t + 1)) =
          some (createNotesXml (scriptOrEmpty ([Slide.mk 1 [] [] none].get
            ⟨t, ht⟩)) (t + 1))) ∧
      (∀ m, 1 ≤ m → m ≤ [Slide.mk 1 ([] : List Char) ([] : List Char)
          (none : Option (List Char))].length →
        (getFile q (slideRelsPath m)).isSome) :=
  ⟨⟨rfl, rfl⟩,
    C9_missing_manifest_tolerated
      [(presPath, "x".toList), (ctPath, "<Types></Types>".toList)]
      [Slide.mk 1 [] [] none] "x".toList rfl (Or.inr rfl)⟩

theorem patched_pres_value (p : Package) (pres : List Char) (L : List Slide) :
    getFile (patched p pres L) presPath =
      some ((processSlides p pres 0 L).2) := by
  rw [patched]
  rw [updateSlideRels_other _ _
    (fun t _ _ => Ne.symm (slideRelsPath_ne_presPath t))]
  rw [updateRootRels_other _ _ (Ne.symm rootRelsPath_ne_presPath)]
  rw [updateContentTypes_other _ _ (Ne.symm ctPath_ne_presPath)]
  rw [getFile_putFile_same]

theorem countUp_length (len : Nat) : ∀ s, (countUp s len).length = len := by
  induction len with
  | zero => intro s; rfl
  | succ l ih => intro s; simp [countUp, ih]

theorem mem_countUp {t : Nat} (len : Nat) : ∀ s, t ∈ countUp s len ↔
    s ≤ t ∧ t < s + len := by
  induction len with
  | zero =>
    intro s
    simp [countUp]
  | succ l ih =>
    intro s
    simp only [countUp, List.mem_cons, ih (s + 1)]
    omega

theorem fab_insert (r : List Char) :
    replaceFirst relsClose r fabricatedSlideRels = fabricatedA ++ r := by
  have hfab : fabricatedSlideRels = fabricatedA ++ relsClose ++ [] := by
    rw [List.append_nil]
    rfl
  rw [hfab, replaceFirst_at (by decide)
    (not_occurs_of_infB_false _ _ (by decide))
    (fun c hc => by
      have he : fabricatedA.getLast? = some (Char.ofNat 10) := by decide
      rw [he] at hc
      injection hc with hc2
      subst hc2
      decide), List.append_nil]

def rootRelEntryBpre : List Char :=
  "\" Type=\"http://schemas.openxmlformats.org/officeDocument/2006/relationships/notesSlide\" Target=\"".toList

theorem probe_in_rootRelEntry (i : Nat) :
    Occurs (rootRelProbe i) (rootRelEntry i) := by
  refine ⟨relEntryLead ++ natDigits (newRootRelId i) ++ rootRelEntryBpre,
    "\"/>".toList, ?_⟩
  rw [rootRelEntry, rootRelProbe,
    show rootRelEntryB = rootRelEntryBpre ++ "notesSlides/notesSlide".toList from rfl,
    show (".xml\"/>").toList = ".xml".toList ++ "\"/>".toList from rfl]
  simp [List.append_assoc]

theorem probe_in_slideNotesEntry (i : Nat) :
    Occurs (slideNotesProbe i) (slideNotesEntry i) := by
  refine ⟨relEntryLead ++ natDigits (newSlideRelId i) ++ rootRelEntryBpre,
    "\"/>".toList, ?_⟩
  rw [slideNotesEntry, slideNotesProbe,
    show slideNotesEntryB = rootRelEntryBpre ++ "../notesSlides/notesSlide".toList from rfl,
    show (".xml\"/>").toList = ".xml".toList ++ "\"/>".toList from rfl]
  simp [List.append_assoc]

theorem rootRelProbe_ne_nil (i : Nat) : rootRelProbe i ≠ [] := by
  rw [rootRelProbe]
  simp

theorem slideNotesProbe_ne_nil (i : Nat) : slideNotesProbe i ≠ [] := by
  rw [slideNotesProbe]
  simp

theorem lt_not_mem_rootRelProbe (i : Nat) : '<' ∉ rootRelProbe i :=
  not_mem_mid_append (by decide) (by decide) (by decide) i

theorem gt_not_mem_rootRelProbe (i : Nat) : '>' ∉ rootRelProbe i :=
  not_mem_mid_append (by decide) (by decide) (by decide) i

theorem lt_not_mem_slideNotesProbe (i : Nat) : '<' ∉ slideNotesProbe i :=
  not_mem_mid_append (by decide) (by decide) (by decide) i

theorem gt_not_mem_slideNotesProbe (i : Nat) : '>' ∉ slideNotesProbe i :=
  not_mem_mid_append (by decide) (by decide) (by decide) i

theorem dot_mem_rootRelProbe (i : Nat) : '.' ∈ rootRelProbe i := by
  rw [rootRelProbe]
  have : '.' ∈ ".xml".toList := by decide
  exact List.mem_append_right _ this

theorem dot_mem_slideNotesProbe (i : Nat) : '.' ∈ slideNotesProbe i := by
  rw [slideNotesProbe]
  have : '.' ∈ ".xml".toList := by decide
  exact List.mem_append_right _ this

theorem relsClose_split : relsClose = '<' :: ("/Relationships".toList ++ ['>']) := rfl

/-- Insertion before `</Relationships>` preserves any probe without `<`/`>`
that also cannot occur inside `/Relationships`. -/
theorem rels_probe_through {pr x b : List Char} (ins : List Char)
    (hpr : pr ≠ []) (hlt : '<' ∉ pr) (hgt : '>' ∉ pr) (hdot : '.' ∈ pr)
    (h : Occurs pr (x ++ relsClose ++ b)) :
    Occurs pr (x ++ ins ++ relsClose ++ b) := by
  have hmid : ¬ Occurs pr "/Relationships".toList :=
    not_occurs_of_missing_char hdot (by decide)
  rw [show x ++ relsClose ++ b = x ++ ('<' :: ("/Relationships".toList ++ ['>'])) ++ b
    from by rw [← relsClose_split]] at h
  rcases occurs_insert_elim hpr hlt hgt hmid h with h1 | h1
  · exact occurs_append_left _ (occurs_append_left _ (occurs_append_left _ h1))
  · exact occurs_append_right _ h1

def ovTail1 : List Char :=
  " <Override PartName=\"/ppt/notesSlides/notesSlide".toList

def ovT2a : List Char := overrideForB ++ mimeType ++ "\"/>".toList

/-- Concatenation of the overrides inserted by the manifest loop. -/
def joinOvs : List Nat → List Char
  | [] => []
  | i :: t => overrideFor i ++ "\n".toList ++ joinOvs t

theorem ov_block_eq (i : Nat) (w : List Char) :
    overrideFor i ++ "\n".toList ++ w =
      ' ' :: (ovTail1 ++ (natDigits i ++ (ovT2a ++ ('\n' :: w)))) := by
  rw [overrideFor, show overrideForA = ' ' :: ovTail1 from rfl, ovT2a]
  simp [List.append_assoc, show ("\n".toList : List Char) = ['\n'] from rfl]

theorem typesClose_not_in_ov_block (i : Nat) (x : List Char)
    (hx : ¬ Occurs typesClose x) :
    ¬ Occurs typesClose (x ++ (overrideFor i ++ "\n".toList)) := by
  intro ho
  have he : overrideFor i ++ "\n".toList =
      ' ' :: (ovTail1 ++ (natDigits i ++ (ovT2a ++ ('\n' :: [])))) := by
    have h2 := ov_block_eq i []
    rwa [List.append_nil] at h2
  rw [he] at ho
  rcases occurs_split_at (by decide) (show ' ' ∉ typesClose by decide) x _ ho
    with h | h
  · exact hx h
  · rw [← List.append_assoc] at h
    rcases occurs_mid_free (by decide) (natDigits_ne_nil i)
      (digits_free_of_no_digit (by decide) i) ovTail1 _ h with h2 | h2
    · exact absurd ((occurs_iff_infB _ _).1 h2) (by decide)
    · exact absurd ((occurs_iff_infB _ _).1 h2) (by decide)

theorem getLast_x_ov (x : List Char) (i : Nat) :
    (x ++ (overrideFor i ++ "\n".toList)).getLast? = some '\n' := by
  have he : x ++ (overrideFor i ++ "\n".toList) =
      (x ++ overrideFor i) ++ ['\n'] := by
    simp [show ("\n".toList : List Char) = ['\n'] from rfl]
  rw [he, List.getLast?_concat]

theorem addOverride_at (i : Nat) {x b : List Char}
    (hx : ¬ Occurs typesClose x)
    (hlast : ∀ c, x.getLast? = some c → c ∉ typesClose) :
    addOverride i (x ++ typesClose ++ b) =
      (x ++ (overrideFor i ++ "\n".toList)) ++ typesClose ++ b := by
  rw [addOverride, replaceFirst_at (by decide) hx hlast]
  simp [List.append_assoc]

theorem ctFold_closed (lst : List Nat) : ∀ (x b : List Char),
    ¬ Occurs typesClose x →
    (∀ c, x.getLast? = some c → c ∉ typesClose) →
    List.foldl (fun acc i => addOverride i acc) (x ++ typesClose ++ b) lst =
      (x ++ joinOvs lst) ++ typesClose ++ b := by
  induction lst with
  | nil =>
    intro x b hx hl
    simp [joinOvs]
  | cons i t ih =>
    intro x b hx hl
    show List.foldl _ (addOverride i (x ++ typesClose ++ b)) t = _
    rw [addOverride_at i hx hl]
    rw [ih (x ++ (overrideFor i ++ "\n".toList)) b
      (typesClose_not_in_ov_block i x hx)
      (fun c hc => by
        rw [getLast_x_ov] at hc
        injection hc with hc2
        subst hc2
        decide)]
    rw [joinOvs]
    simp [List.append_assoc]

theorem ctTransform_closed {ct : List Char} (n : Nat)
    (hmime : infB mimeType ct = false) (hocc : Occurs typesClose ct) :
    ∃ x b, ct = x ++ typesClose ++ b ∧ ¬ Occurs typesClose x ∧
      ctTransform n ct =
        (x ++ joinOvs (1 :: countUp 2 (n - 1))) ++ typesClose ++ b := by
  rcases replaceFirst_decomp (show typesClose ≠ [] by decide) hocc
    with ⟨x, b, hct, hx, hrf⟩
  refine ⟨x, b, hct, hx, ?_⟩
  rw [ctTransform, if_neg (by simp [hmime])]
  have h1 : addOverride 1 ct =
      (x ++ (overrideFor 1 ++ "\n".toList)) ++ typesClose ++ b := by
    rw [addOverride, hrf]
    simp [List.append_assoc]
  rw [h1]
  rw [ctFold_closed (countUp 2 (n - 1)) (x ++ (overrideFor 1 ++ "\n".toList)) b
    (typesClose_not_in_ov_block 1 x hx)
    (fun c hc => by
      rw [getLast_x_ov] at hc
      injection hc with hc2
      subst hc2
      decide)]
  rw [joinOvs]
  simp [List.append_assoc]

theorem count_x_ov_block (i : Nat) (x w : List Char) :
    countOccur mimeType (x ++ (overrideFor i ++ "\n".toList ++ w)) =
      countOccur mimeType x + 1 + countOccur mimeType w := by
  rw [ov_block_eq]
  rw [count_split_at (by decide) (show ' ' ∉ mimeType by decide)]
  rw [show ovTail1 ++ (natDigits i ++ (ovT2a ++ ('\n' :: w))) =
      ovTail1 ++ natDigits i ++ (ovT2a ++ ('\n' :: w)) from by
    rw [List.append_assoc]]
  rw [count_free_mid (by decide) (natDigits_ne_nil i)
    (digits_free_of_no_digit (by decide) i)]
  rw [show countOccur mimeType ovTail1 = 0 from by decide]
  rw [count_split_at (by decide) (show '\n' ∉ mimeType by decide)]
  rw [show countOccur mimeType ovT2a = 1 from by decide]
  omega

theorem count_x_joinOvs (lst : List Nat) : ∀ (x z : List Char), lst ≠ [] →
    countOccur mimeType (x ++ (joinOvs lst ++ z)) =
      countOccur mimeType x + lst.length + countOccur mimeType z := by
  induction lst with
  | nil => intro x z h; exact absurd rfl h
  | cons i t ih =>
    intro x z _
    have he : x ++ (joinOvs (i :: t) ++ z) =
        x ++ (overrideFor i ++ "\n".toList ++ (joinOvs t ++ z)) := by
      rw [joinOvs]
      simp [List.append_assoc]
    rw [he, count_x_ov_block]
    cases t with
    | nil =>
      rw [show joinOvs [] ++ z = z from by rw [joinOvs]; simp]
      simp
    | cons j t2 =>
      have h2 := ih [] z (by simp)
      rw [List.nil_append, show countOccur mimeType [] = 0 from rfl] at h2
      rw [h2]
      simp only [List.length_cons]
      omega

theorem ctTransform_count {ct : List Char} (n : Nat)
    (hmime : infB mimeType ct = false) (hocc : Occurs typesClose ct)
    (hn : 1 ≤ n) : countOccur mimeType (ctTransform n ct) = n := by
  rcases ctTransform_closed n hmime hocc with ⟨x, b, hct, hx, hres⟩
  rw [hres]
  have h0 : ¬ Occurs mimeType ct := not_occurs_of_infB_false _ _ hmime
  have hx0 : countOccur mimeType x = 0 :=
    countOccur_eq_zero (by decide)
      (fun h => h0 (hct ▸ occurs_append_left _ (occurs_append_left _ h)))
  have hpb0 : countOccur mimeType (typesClose ++ b) = 0 :=
    countOccur_eq_zero (by decide)
      (fun h => h0 (by rw [hct, List.append_assoc]; exact occurs_append_right _ h))
  rw [show (x ++ joinOvs (1 :: countUp 2 (n - 1))) ++ typesClose ++ b =
      x ++ (joinOvs (1 :: countUp 2 (n - 1)) ++ (typesClose ++ b)) from by
    simp [List.append_assoc]]
  rw [count_x_joinOvs _ _ _ (by simp), hx0, hpb0]
  simp only [List.length_cons, countUp_length]
  omega

theorem mime_in_overrideFor (i : Nat) : Occurs mimeType (overrideFor i) :=
  ⟨overrideForA ++ natDigits i ++ overrideForB, "\"/>".toList, by
    rw [overrideFor]⟩

theorem ov_in_joinOvs {i : Nat} {lst : List Nat} (h : i ∈ lst) :
    Occurs (overrideFor i) (joinOvs lst) := by
  induction lst with
  | nil => cases h
  | cons j t ih =>
    rcases List.mem_cons.mp h with h1 | h1
    · subst h1
      rw [joinOvs]
      exact ⟨[], "\n".toList ++ joinOvs t, by simp [List.append_assoc]⟩
    · rw [joinOvs]
      exact occurs_append_right _ (ih h1)

theorem addOverride_no_close {ct : List Char} (i : Nat)
    (h : ¬ Occurs typesClose ct) : addOverride i ct = ct := by
  rw [addOverride]
  exact replaceFirst_of_not_occurs _ h

theorem ctFold_no_close (lst : List Nat) : ∀ ct, ¬ Occurs typesClose ct →
    List.foldl (fun acc i => addOverride i acc) ct lst = ct := by
  induction lst with
  | nil => intro ct h; rfl
  | cons i t ih =>
    intro ct h
    show List.foldl _ (addOverride i ct) t = ct
    rw [addOverride_no_close i h]
    exact ih ct h

theorem ctTransform_no_close {ct : List Char} (n : Nat)
    (h : ¬ Occurs typesClose ct) : ctTransform n ct = ct := by
  rw [ctTransform]
  by_cases hm : infB mimeType ct = true
  · rw [if_pos hm]
  · rw [if_neg hm, addOverride_no_close 1 h]
    exact ctFold_no_close _ ct h

theorem ctTransform_idem (n : Nat) (ct : List Char) :
    ctTransform n (ctTransform n ct) = ctTransform n ct := by
  by_cases hm : infB mimeType ct = true
  · have h1 : ctTransform n ct = ct := by rw [ctTransform, if_pos hm]
    rw [h1, ctTransform, if_pos hm]
  · have hmf : infB mimeType ct = false := Bool.eq_false_iff.mpr hm
    by_cases hc : Occurs typesClose ct
    · rcases ctTransform_closed n hmf hc with ⟨x, b, hct, hx, hres⟩
      have hmime2 : infB mimeType (ctTransform n ct) = true := by
        apply (occurs_iff_infB _ _).1
        rw [hres]
        have h1 : Occurs mimeType (joinOvs (1 :: countUp 2 (n - 1))) :=
          occurs_trans (mime_in_overrideFor 1) (ov_in_joinOvs (by simp))
        exact occurs_append_left _ (occurs_append_left _ (occurs_append_right _ h1))
      rw [ctTransform, if_pos hmime2]
    · have hfix : ctTransform n ct = ct := ctTransform_no_close n hc
      rw [hfix, hfix]

theorem addRootRel_no_close {rels : List Char} (i : Nat)
    (h : ¬ Occurs relsClose rels) : addRootRel i rels = rels := by
  rw [addRootRel]
  by_cases hg : infB (rootRelProbe i) rels = true
  · rw [if_pos hg]
  · rw [if_neg hg]
    exact replaceFirst_of_not_occurs _ h

theorem relsFold_no_close (lst : List Nat) : ∀ rels, ¬ Occurs relsClose rels →
    List.foldl (fun acc i => addRootRel i acc) rels lst = rels := by
  induction lst with
  | nil => intro rels _; rfl
  | cons i t ih =>
    intro rels h
    show List.foldl _ (addRootRel i rels) t = rels
    rw [addRootRel_no_close i h]
    exact ih rels h

theorem addRootRel_keeps (i : Nat) {rels : List Char}
    (hc : Occurs relsClose rels) :
    Occurs relsClose (addRootRel i rels) ∧
      Occurs (rootRelProbe i) (addRootRel i rels) ∧
      (∀ j, Occurs (rootRelProbe j) rels →
        Occurs (rootRelProbe j) (addRootRel i rels)) := by
  rw [addRootRel]
  by_cases hg : infB (rootRelProbe i) rels = true
  · rw [if_pos hg]
    exact ⟨hc, (occurs_iff_infB _ _).2 hg, fun j h => h⟩
  · rw [if_neg hg]
    rcases replaceFirst_decomp (show relsClose ≠ [] by decide) hc
      with ⟨x, b, hrels, hx, hrf⟩
    rw [hrf]
    refine ⟨?_, ?_, ?_⟩
    · exact ⟨x ++ (rootRelEntry i ++ "\n".toList), b, by simp [List.append_assoc]⟩
    · apply occurs_trans (probe_in_rootRelEntry i)
      exact ⟨x, "\n".toList ++ relsClose ++ b, by simp [List.append_assoc]⟩
    · intro j h
      rw [hrels] at h
      have h2 := rels_probe_through (rootRelEntry i ++ "\n".toList)
        (rootRelProbe_ne_nil j) (lt_not_mem_rootRelProbe j)
        (gt_not_mem_rootRelProbe j) (dot_mem_rootRelProbe j) h
      have he : x ++ (rootRelEntry i ++ "\n".toList) ++ relsClose ++ b =
          x ++ (rootRelEntry i ++ "\n".toList ++ relsClose) ++ b := by
        simp [List.append_assoc]
      rwa [he] at h2

theorem relsFold_keeps (lst : List Nat) : ∀ rels, Occurs relsClose rels →
    Occurs relsClose (List.foldl (fun acc i => addRootRel i acc) rels lst) ∧
      (∀ j, Occurs (rootRelProbe j) rels →
        Occurs (rootRelProbe j)
          (List.foldl (fun acc i => addRootRel i acc) rels lst)) ∧
      (∀ i ∈ lst, Occurs (rootRelProbe i)
        (List.foldl (fun acc i => addRootRel i acc) rels lst)) := by
  induction lst with
  | nil =>
    intro rels hc
    exact ⟨hc, fun j h => h, by simp⟩
  | cons i t ih =>
    intro rels hc
    obtain ⟨k1, k2, k3⟩ := addRootRel_keeps i hc
    obtain ⟨m1, m2, m3⟩ := ih (addRootRel i rels) k1
    refine ⟨m1, fun j h => m2 j (k3 j h), ?_⟩
    intro u hu
    rcases List.mem_cons.mp hu with h1 | h1
    · subst h1
      exact m2 u k2
    · exact m3 u h1

theorem relsFold_fixed (lst : List Nat) : ∀ rels,
    (∀ i ∈ lst, infB (rootRelProbe i) rels = true) →
    List.foldl (fun acc i => addRootRel i acc) rels lst = rels := by
  induction lst with
  | nil => intro rels _; rfl
  | cons i t ih =>
    intro rels h
    show List.foldl _ (addRootRel i rels) t = rels
    rw [addRootRel, if_pos (h i (by simp))]
    exact ih rels (fun j hj => h j (by simp [hj]))

theorem relsTransform_idem (n : Nat) (rels : List Char) :
    relsTransform n (relsTransform n rels) = relsTransform n rels := by
  by_cases hc : Occurs relsClose rels
  · obtain ⟨_, _, h3⟩ := relsFold_keeps (countUp 1 n) rels hc
    rw [relsTransform]
    exact relsFold_fixed _ _ (fun i hi => (occurs_iff_infB _ _).1 (h3 i hi))
  · have h1 : relsTransform n rels = rels := by
      rw [relsTransform]
      exact relsFold_no_close _ _ hc
    rw [h1]
    exact h1

theorem relsClose_in_fab : Occurs relsClose fabricatedSlideRels :=
  ⟨fabricatedA, [], by simp [fabricatedSlideRels]⟩

theorem srIns_keeps_probe (i : Nat) {s : List Char} (hc : Occurs relsClose s) :
    Occurs (slideNotesProbe i)
      (replaceFirst relsClose (slideNotesEntry i ++ "\n".toList ++ relsClose) s) := by
  rcases replaceFirst_decomp (show relsClose ≠ [] by decide) hc
    with ⟨x, b, hs, hx, hrf⟩
  rw [hrf]
  apply occurs_trans (probe_in_slideNotesEntry i)
  exact ⟨x, "\n".toList ++ relsClose ++ b, by simp [List.append_assoc]⟩

theorem srVal_none (i : Nat) : srVal i none =
    some (replaceFirst relsClose (slideNotesEntry i ++ "\n".toList ++ relsClose)
      fabricatedSlideRels) := by
  simp only [srVal]
  rw [if_neg (by rw [slideNotesProbe_not_in_fabricated i]; simp)]

theorem srVal_some (i : Nat) (s : List Char) : srVal i (some s) =
    if infB (slideNotesProbe i) s then some s
    else some (replaceFirst relsClose
      (slideNotesEntry i ++ "\n".toList ++ relsClose) s) := by
  simp only [srVal]

theorem srVal_idem (i : Nat) (o : Option (List Char)) :
    srVal i (srVal i o) = srVal i o := by
  cases o with
  | none =>
    rw [srVal_none, srVal_some,
      if_pos ((occurs_iff_infB _ _).1 (srIns_keeps_probe i relsClose_in_fab))]
  | some s =>
    by_cases hg : infB (slideNotesProbe i) s = true
    · rw [srVal_some, if_pos hg, srVal_some, if_pos hg]
    · rw [srVal_some, if_neg hg]
      by_cases hc : Occurs relsClose s
      · rw [srVal_some,
          if_pos ((occurs_iff_infB _ _).1 (srIns_keeps_probe i hc))]
      · rw [replaceFirst_of_not_occurs _ hc, srVal_some, if_neg hg,
          replaceFirst_of_not_occurs _ hc]

/-- C1: idempotence of the patch operation.  Applying the add-notes patch
twice in succession to the same original package yields a package whose
content-type manifest, root relationship list and every per-slide
relationship list are exactly those of applying it once: each insertion is
guarded by a presence check against the current fragment text, so the
second run adds no override, no root relationship and no per-slide
relationship. -/
theorem C1_patch_idempotent (p q r : Package) (L : List Slide)
    (h1 : attachNotes p L = Except.ok q) (h2 : attachNotes q L = Except.ok r) :
    getFile r ctPath = getFile q ctPath ∧
      getFile r rootRelsPath = getFile q rootRelsPath ∧
      (∀ m, getFile r (slideRelsPath m) = getFile q (slideRelsPath m)) := by
  cases hge : getFile p presPath with
  | none => rw [attachNotes, hge] at h1; cases h1
  | some pres =>
    rw [attachNotes_ok L hge] at h1
    injection h1 with h1
    subst h1
    cases hge2 : getFile (patched p pres L) presPath with
    | none => rw [patched_pres_value] at hge2; cases hge2
    | some pres2 =>
      rw [attachNotes_ok L hge2] at h2
      injection h2 with h2
      subst h2
      refine ⟨?_, ?_, ?_⟩
      · rw [patched_ct_value, patched_ct_value]
        cases hct : getFile p ctPath with
        | none => rfl
        | some ct => simp [ctTransform_idem]
      · rw [patched_root_value, patched_root_value]
        cases hrr : getFile p rootRelsPath with
        | none => rfl
        | some rels => simp [relsTransform_idem]
      · intro m
        by_cases hm : 1 ≤ m ∧ m ≤ L.length
        · rw [patched_slideRels_value _ _ _ m hm.1 hm.2,
            patched_slideRels_value _ _ _ m hm.1 hm.2]
          exact srVal_idem m _
        · have hm2 : m = 0 ∨ L.length < m := by omega
          rw [patched_slideRels_outside _ pres2 L m hm2]

theorem C1_patch_idempotent_witness :
    ∃ q r, attachNotes [(presPath, "x".toList)] [Slide.mk 1 [] [] none] =
        Except.ok q ∧
      attachNotes q [Slide.mk 1 [] [] none] = Except.ok r ∧
      (getFile r ctPath = getFile q ctPath ∧
        getFile r rootRelsPath = getFile q rootRelsPath ∧
        (∀ m, getFile r (slideRelsPath m) = getFile q (slideRelsPath m))) := by
  have h1 : attachNotes [(presPath, "x".toList)] [Slide.mk 1 [] [] none] =
      Except.ok (patched [(presPath, "x".toList)] "x".toList
        [Slide.mk 1 [] [] none]) := rfl
  have h2 : attachNotes
      (patched [(presPath, "x".toList)] "x".toList [Slide.mk 1 [] [] none])
      [Slide.mk 1 [] [] none] =
      Except.ok (patched
        (patched [(presPath, "x".toList)] "x".toList [Slide.mk 1 [] [] none])
        ((processSlides [(presPath, "x".toList)] "x".toList 0
          [Slide.mk 1 [] [] none]).2)
        [Slide.mk 1 [] [] none]) :=
    attachNotes_ok _ (patched_pres_value _ _ _)
  exact ⟨_, _, h1, h2, C1_patch_idempotent _ _ _ _ h1 h2⟩

/-- The part-name probe of the override inserted for slide `i`. -/
def overridePartProbe (i : Nat) : List Char :=
  "PartName=\"/ppt/notesSlides/notesSlide".toList ++ natDigits i ++ ".xml\"".toList

theorem probe_in_overrideFor (i : Nat) :
    Occurs (overridePartProbe i) (overrideFor i) := by
  refine ⟨"  <Override ".toList,
    " ContentType=\"".toList ++ mimeType ++ "\"/>".toList, ?_⟩
  rw [overrideFor, overridePartProbe,
    show overrideForA = "  <Override ".toList ++
      "PartName=\"/ppt/notesSlides/notesSlide".toList from rfl,
    show overrideForB = ".xml\"".toList ++ " ContentType=\"".toList from rfl]
  simp [List.append_assoc]

/-- C5 amended: the content-type registration is all-or-nothing keyed on the
MIME string, and for a manifest that contains the closing `</Types>` tag and
at least one slide: when the MIME string is absent the patch adds exactly
one override per introduced notes part (the MIME string occurs exactly N
times afterwards and each part's name is present); when the MIME string is
already present anywhere, the manifest part is left entirely unchanged, even
if a specific new part lacks an override.  (As stated the claim fails at
N = 0, where the code still inserts the slide-1 override.) -/
theorem C5_content_type_policy (p : Package) (L : List Slide)
    (pres ct : List Char) (hp : getFile p presPath = some pres)
    (hct : getFile p ctPath = some ct) :
    (infB mimeType ct = false → Occurs typesClose ct → 1 ≤ L.length →
      ∃ q, attachNotes p L = Except.ok q ∧
        countOccur mimeType ((getFile q ctPath).getD []) = L.length ∧
        (∀ i, 1 ≤ i → i ≤ L.length →
          Occurs (overridePartProbe i) ((getFile q ctPath).getD []))) ∧
    (infB mimeType ct = true →
      ∃ q, attachNotes p L = Except.ok q ∧ getFile q ctPath = some ct) := by
  constructor
  · intro hm hc hn
    refine ⟨patched p pres L, attachNotes_ok L hp, ?_, ?_⟩
    · rw [patched_ct_value, hct]
      simp only [Option.map, Option.getD]
      exact ctTransform_count L.length hm hc hn
    · intro i h1 h2
      rw [patched_ct_value, hct]
      simp only [Option.map, Option.getD]
      rcases ctTransform_closed L.length hm hc with ⟨x, b, hct2, hx, hres⟩
      rw [hres]
      have hmem : i ∈ (1 :: countUp 2 (L.length - 1)) := by
        rcases Nat.eq_or_lt_of_le h1 with h | h
        · simp [← h]
        · exact List.mem_cons.mpr (Or.inr ((mem_countUp _ 2).2 ⟨by omega, by omega⟩))
      have hov : Occurs (overridePartProbe i)
          (joinOvs (1 :: countUp 2 (L.length - 1))) :=
        occurs_trans (probe_in_overrideFor i) (ov_in_joinOvs hmem)
      exact occurs_append_left _ (occurs_append_left _ (occurs_append_right _ hov))
  · intro hm
    refine ⟨patched p pres L, attachNotes_ok L hp, ?_⟩
    rw [patched_ct_value, hct]
    simp only [Option.map]
    rw [ctTransform, if_pos hm]

theorem C5_content_type_policy_witness :
    ∃ q, attachNotes [(presPath, "x".toList),
        (ctPath, "<Types></Types>".toList)] [Slide.mk 1 [] [] none] =
        Except.ok q ∧
      countOccur mimeType ((getFile q ctPath).getD []) =
        [Slide.mk 1 ([] : List Char) ([] : List Char)
          (none : Option (List Char))].length ∧
      (∀ i, 1 ≤ i → i ≤ [Slide.mk 1 ([] : List Char) ([] : List Char)
          (none : Option (List Char))].length →
        Occurs (overridePartProbe i) ((getFile q ctPath).getD [])) :=
  (C5_content_type_policy
      [(presPath, "x".toList), (ctPath, "<Types></Types>".toList)]
      [Slide.mk 1 [] [] none] "x".toList "<Types></Types>".toList rfl rfl).1
    (by decide) ((occurs_iff_infB _ _).2 (by decide)) (by decide)

/-- C5 counterexample: with an empty slides list (N = 0) and a manifest
lacking the MIME type, the code still inserts the override for
`notesSlide1.xml` (source line 71 runs unconditionally inside the presence
guard), so the patched manifest holds one override where the claim demands
N = 0 overrides. -/
theorem C5_counterexample :
    (match attachNotes [(presPath, "x".toList),
        (ctPath, "<Types></Types>".toList)] [] with
     | Except.ok q => countOccur mimeType ((getFile q ctPath).getD [])
     | Except.error _ => 0) = 1 ∧ (1 : Nat) ≠ 0 :=
  ⟨rfl, by decide⟩

/-- C8: a slide position k whose per-slide relationship part is absent from
the input package does not make the operation fail: the output contains, at
that path, exactly the fabricated minimal file — the single slide-layout
relationship rId1 targeting ../slideLayouts/slideLayout1.xml — with the
notes relationship rId(100+k) targeting ../notesSlides/notesSlidek.xml
appended before the closing tag, and nothing else. -/
theorem C8_fabricates_missing_slide_rels (p : Package) (L : List Slide)
    (pres : List Char) (k : Nat) (hp : getFile p presPath = some pres)
    (habs : getFile p (slideRelsPath k) = none) (h1 : 1 ≤ k)
    (h2 : k ≤ L.length) :
    ∃ q, attachNotes p L = Except.ok q ∧
      getFile q (slideRelsPath k) =
        some (fabricatedA ++ (slideNotesEntry k ++ "\n".toList ++ relsClose)) := by
  refine ⟨patched p pres L, attachNotes_ok L hp, ?_⟩
  rw [patched_slideRels_value p pres L k h1 h2, habs, srVal_none, fab_insert]

theorem C8_fabricates_missing_slide_rels_witness :
    ∃ q, attachNotes [(presPath, "x".toList)] [Slide.mk 1 [] [] none] =
        Except.ok q ∧
      getFile q (slideRelsPath 1) =
        some (fabricatedA ++ (slideNotesEntry 1 ++ "\n".toList ++ relsClose)) :=
  C8_fabricates_missing_slide_rels [(presPath, "x".toList)]
    [Slide.mk 1 [] [] none] "x".toList 1 rfl rfl (by decide) (by decide)


/-- A 3-slide package for the scenario of C6: a presentation listing three
slide entries rId2/rId3/rId4, a manifest without the notes-slide MIME type,
and a root relationship list with pre-existing identifiers rId1..rId4. -/
def scenarioPres : List Char :=
  ("<p:presentation><p:sldIdLst><p:sldId id=\"256\" r:id=\"rId2\"/><p:sldId id=\"257\" r:id=\"rId3\"/><p:sldId id=\"258\" r:id=\"rId4\"/></p:sldIdLst></p:presentation>").toList

def scenarioCT : List Char :=
  ("<Types><Default Extension=\"xml\" ContentType=\"application/xml\"/></Types>").toList

def scenarioRels : List Char :=
  ("<Relationships><Relationship Id=\"rId1\" Type=\"m\" Target=\"slideMasters/slideMaster1.xml\"/><Relationship Id=\"rId2\" Type=\"s\" Target=\"slides/slide1.xml\"/><Relationship Id=\"rId3\" Type=\"s\" Target=\"slides/slide2.xml\"/><Relationship Id=\"rId4\" Type=\"s\" Target=\"slides/slide3.xml\"/></Relationships>").toList

def scenarioPkg : Package :=
  [(ctPath, scenarioCT), (presPath, scenarioPres), (rootRelsPath, scenarioRels)]

def scenarioSlides : List Slide :=
  [Slide.mk 1 "One".toList [] none,
    Slide.mk 2 "Two".toList [] (some "Hello & welcome".toList),
    Slide.mk 3 "Three".toList [] none]

/-- The number of notes-slide MIME overrides in the manifest of the result
of a patch run. -/
def ctCountAfter (r : Except (List Char) Package) : Nat :=
  match r with
  | Except.ok q => countOccur mimeType ((getFile q ctPath).getD [])
  | Except.error _ => 0

/-- The root relationship part of the result of a patch run. -/
def rootRelsAfter (r : Except (List Char) Package) : Option (List Char) :=
  match r with
  | Except.ok q => getFile q rootRelsPath
  | Except.error _ => none

/-- The root relationship list after patching the scenario: the four
original relationships with exactly three appended notes relationships
carrying the reserved-band identifiers rId1001, rId1002, rId1003. -/
def scenarioRelsOut : List Char :=
  ("<Relationships><Relationship Id=\"rId1\" Type=\"m\" Target=\"slideMasters/slideMaster1.xml\"/><Relationship Id=\"rId2\" Type=\"s\" Target=\"slides/slide1.xml\"/><Relationship Id=\"rId3\" Type=\"s\" Target=\"slides/slide2.xml\"/><Relationship Id=\"rId4\" Type=\"s\" Target=\"slides/slide3.xml\"/>  <Relationship Id=\"rId1001\" Type=\"http://schemas.openxmlformats.org/officeDocument/2006/relationships/notesSlide\" Target=\"notesSlides/notesSlide1.xml\"/>\n  <Relationship Id=\"rId1002\" Type=\"http://schemas.openxmlformats.org/officeDocument/2006/relationships/notesSlide\" Target=\"notesSlides/notesSlide2.xml\"/>\n  <Relationship Id=\"rId1003\" Type=\"http://schemas.openxmlformats.org/officeDocument/2006/relationships/notesSlide\" Target=\"notesSlides/notesSlide3.xml\"/>\n</Relationships>").toList

set_option maxHeartbeats 2000000 in
/-- C6 counterexample: on the 3-slide scenario package whose manifest lacks
the notes-slide MIME type, one patch run leaves the manifest with exactly
three notes-slide MIME overrides — one per slide (source lines 71–82) — not
exactly one as the claim states. -/
theorem C6_counterexample :
    ctCountAfter (attachNotes scenarioPkg scenarioSlides) = 3 ∧ (3 : Nat) ≠ 1 := by
  constructor
  · rw [attachNotes_ok scenarioSlides
      (show getFile scenarioPkg presPath = some scenarioPres from rfl)]
    rw [show ctCountAfter (Except.ok (patched scenarioPkg scenarioPres scenarioSlides)) =
      countOccur mimeType
        ((getFile (patched scenarioPkg scenarioPres scenarioSlides) ctPath).getD [])
      from rfl]
    rw [patched_ct_value,
      show getFile scenarioPkg ctPath = some scenarioCT from rfl]
    rw [show ((Option.map (ctTransform scenarioSlides.length)
        (some scenarioCT)).getD []) = ctTransform 3 scenarioCT from rfl]
    exact ctTransform_count 3 (by decide)
      ((occurs_iff_infB _ _).2 (by decide)) (by omega)
  · decide

set_option maxHeartbeats 2000000 in
/-- C6 amended: for the 3-slide scenario, after one patch run the manifest
contains exactly three notes-slide MIME overrides (one per slide, not one in
total), and the root relationship list is the original list with exactly 3
new relationships appended, carrying the reserved-band identifiers rId1001,
rId1002 and rId1003. -/
theorem C6_three_slide_scenario :
    ctCountAfter (attachNotes scenarioPkg scenarioSlides) = 3 ∧
      rootRelsAfter (attachNotes scenarioPkg scenarioSlides) =
        some scenarioRelsOut := by
  constructor
  · rw [attachNotes_ok scenarioSlides
      (show getFile scenarioPkg presPath = some scenarioPres from rfl)]
    rw [show ctCountAfter (Except.ok (patched scenarioPkg scenarioPres scenarioSlides)) =
      countOccur mimeType
        ((getFile (patched scenarioPkg scenarioPres scenarioSlides) ctPath).getD [])
      from rfl]
    rw [patched_ct_value,
      show getFile scenarioPkg ctPath = some scenarioCT from rfl]
    rw [show ((Option.map (ctTransform scenarioSlides.length)
        (some scenarioCT)).getD []) = ctTransform 3 scenarioCT from rfl]
    exact ctTransform_count 3 (by decide)
      ((occurs_iff_infB _ _).2 (by decide)) (by omega)
  · rw [attachNotes_ok scenarioSlides
      (show getFile scenarioPkg presPath = some scenarioPres from rfl)]
    rw [show rootRelsAfter (Except.ok (patched scenarioPkg scenarioPres scenarioSlides)) =
      getFile (patched scenarioPkg scenarioPres scenarioSlides) rootRelsPath
      from rfl]
    rw [patched_root_value,
      show getFile scenarioPkg rootRelsPath = some scenarioRels from rfl]
    rw [show Option.map (relsTransform scenarioSlides.length) (some scenarioRels) =
      some (relsTransform 3 scenarioRels) from rfl]
    rfl
